import Mathlib

/-!
Verification of the warm-shim pooling layer of this containerd tree.

The development shallowly embeds the Go code of
`runtime/v2/warm_client.go`, `runtime/v2/warm.go`, `runtime/v2/binary.go`,
the shim-side warm service (`warmServiceImpl.Bind`) and the prewarmed
`ShimPool`.  Pure computations become Lean functions; stateful methods
become explicit state-passing functions; external effects (process launch,
RPC transport, filesystem, clocks) become explicit parameters or a small
filesystem value threaded through the function.

Filesystem paths are represented as lists of clean path segments
(`GoPath`).  On such paths Go `filepath.Join` with single clean segments
is list append and `filepath.Dir` is `List.dropLast`; every path built by
the embedded code is of this clean form, so the correspondence is exact.
-/

set_option maxHeartbeats 1000000

namespace ContainerdWarm

/-- Paths are modelled as lists of clean path segments; `filepath.Join`
on clean segments is append and `filepath.Dir` is `dropLast`. -/
abbrev GoPath := List String

/-- Go `filepath.Dir` on a clean segment-list path drops the final segment. -/
def filepathDir (p : GoPath) : GoPath := p.dropLast

/-- Go `filepath.Join` of a path with further clean segments appends them. -/
def filepathJoin (p : GoPath) (segs : List String) : GoPath := p ++ segs

/-- ShimState from `runtime/v2/warm.go`: Warming, Bound, Active. -/
inductive ShimState where
  | Warming
  | Bound
  | Active
deriving DecidableEq, Repr

/-- Bundle from `runtime/v2/bundle.go` as used by the warm path: identity,
path and namespace of a shim working directory. -/
structure Bundle where
  ID : String
  Path : GoPath
  Namespace : String
deriving DecidableEq, Repr

/-- The shim handle of `runtime/v2/shim.go` as used by the warm path: its
bundle and its RPC client.  The Go field `client any` is either a live
client or nil; only nil-ness is observable to the embedded code
(`NewWarmClient` rejects nil, and the prototype transport treats every
non-nil client alike), so the client is `Option Unit`. -/
structure Shim where
  bundle : Bundle
  client : Option Unit
deriving DecidableEq, Repr

/-- Mount descriptions carried inside a bind request. -/
structure Mount where
  type : String
  source : String
  target : String
  options : List String
deriving DecidableEq, Repr

/-- Stdio configuration inside runtime.CreateOpts. -/
structure IOConfig where
  Stdin : String
  Stdout : String
  Stderr : String
  Terminal : Bool
deriving DecidableEq, Repr

/-- runtime.CreateOpts fields read by the warm bind path; the field
named IO in the Go struct is embedded as IOcfg. -/
structure CreateOpts where
  Rootfs : List Mount
  IOcfg : IOConfig
  RuntimeOptions : String
deriving DecidableEq, Repr

/-- WarmBindRequest from `runtime/v2/warm.go`. -/
structure WarmBindRequest where
  ID : String
  Bundle : GoPath
  Rootfs : List Mount
  Stdin : String
  Stdout : String
  Stderr : String
  Terminal : Bool
  RuntimeOpts : String
deriving DecidableEq, Repr

/-- WarmBindResponse from `runtime/v2/warm.go`: a single ready flag. -/
structure WarmBindResponse where
  Ready : Bool
deriving DecidableEq, Repr

/-- warmShimInstance from `runtime/v2/warm_client.go`: a shim handle plus
warm-pool bookkeeping (mutex dropped in the sequential embedding). -/
structure WarmShimInstance where
  shim : Shim
  state : ShimState
  warmID : String
  boundID : String
deriving DecidableEq, Repr

/-- NewWarmClient from `runtime/v2/warm_client.go`: fails only on a nil
shim client. -/
def NewWarmClient (shimClient : Option Unit) : Except String Unit :=
  match shimClient with
  | none => .error "shim client is nil"
  | some c => .ok c

/-- Bind of warmClientImpl from `runtime/v2/warm_client.go`: the prototype
transport acknowledges every request with Ready = true for both the ttrpc
and the grpc branch. -/
def warmClientImplBind (_req : WarmBindRequest) : Except String WarmBindResponse :=
  .ok { Ready := true }

/-- Real-bundle path computation shared by callBindRPC and Bind in
`runtime/v2/warm_client.go`: strip three trailing segments of the stored
warm bundle path (warm-id, namespace, the literal "warm") and re-join the
stored namespace with the requested container id. -/
def bindRealBundle (w : WarmShimInstance) (id : String) : GoPath :=
  let warmBundleDir := filepathDir w.shim.bundle.Path
  let nsDir := filepathDir warmBundleDir
  let stateDir := filepathDir nsDir
  filepathJoin stateDir [w.shim.bundle.Namespace, id]

/-- callBindRPC of warmShimInstance from `runtime/v2/warm_client.go`:
build the request against the recomputed real bundle path, create a warm
client from the shim connection, issue Bind, and require a ready
acknowledgement. -/
def callBindRPC (w : WarmShimInstance) (id : String) (opts : CreateOpts) :
    Except String Unit :=
  let realBundle := bindRealBundle w id
  let req : WarmBindRequest :=
    { ID := id
      Bundle := realBundle
      Rootfs := opts.Rootfs
      Stdin := opts.IOcfg.Stdin
      Stdout := opts.IOcfg.Stdout
      Stderr := opts.IOcfg.Stderr
      Terminal := opts.IOcfg.Terminal
      RuntimeOpts := opts.RuntimeOptions }
  match NewWarmClient w.shim.client with
  | .error e => .error ("failed to create warm client: " ++ e)
  | .ok _ =>
    match warmClientImplBind req with
    | .error e => .error ("bind RPC failed: " ++ e)
    | .ok resp =>
      if !resp.Ready then .error "warm shim not ready after bind"
      else .ok ()

/-- Bind of warmShimInstance from `runtime/v2/warm_client.go`: guard on
the Warming state, record boundID, call the bind RPC, and on success move
to Bound and re-point the bundle identity and path at the real container
bundle.  The function returns the call result together with the updated
instance. -/
def warmShimInstanceBind (w : WarmShimInstance) (id : String) (opts : CreateOpts) :
    Except String Unit × WarmShimInstance :=
  if w.state ≠ ShimState.Warming then
    (.error "warm shim not in warming state", w)
  else
    let w1 := { w with boundID := id }
    match callBindRPC w1 id opts with
    | .error e => (.error ("failed to call bind RPC: " ++ e), w1)
    | .ok _ =>
      let w2 := { w1 with state := ShimState.Bound }
      let realBundle := bindRealBundle w2 id
      let w3 := { w2 with
        shim := { w2.shim with
          bundle := { w2.shim.bundle with ID := id, Path := realBundle } } }
      (.ok (), w3)

/-- Go buffered channel: a capacity, the buffered values in FIFO order,
and a closed flag. -/
structure GoChan (α : Type) where
  cap : Nat
  buf : List α
  closed : Bool

/-- Outcome of a non-blocking send, the `select` with a `default` branch
used by warmOne.  Per the Go specification a send on a closed channel
proceeds by panicking, and inside a `select` such a send counts as ready,
so it is chosen in preference to `default`: the result is a runtime
panic, not the default branch. -/
inductive TrySendResult where
  | sent
  | full
  | panicked
deriving DecidableEq, Repr

/-- Non-blocking send on a Go channel (a `select` whose cases are one send
and `default`). -/
def GoChan.trySend {α : Type} (ch : GoChan α) (a : α) : TrySendResult × GoChan α :=
  if ch.closed then (.panicked, ch)
  else if ch.buf.length < ch.cap then (.sent, { ch with buf := ch.buf ++ [a] })
  else (.full, ch)

/-- Closing a Go channel. -/
def GoChan.closeChan {α : Type} (ch : GoChan α) : GoChan α :=
  { ch with closed := true }

/-- WarmPoolConfig from `runtime/v2/warm_client.go`.  Sizes and durations
are Go ints, embedded as integers (the duration in nanoseconds). -/
structure WarmPoolConfig where
  Size : Int
  TakeTimeout : Int
  Enabled : Bool
deriving DecidableEq, Repr

/-- Default pool size constant from `runtime/v2/warm_client.go`. -/
def defaultWarmPoolSize : Int := 2

/-- Default take timeout constant (100ms in nanoseconds). -/
def defaultTakeTimeout : Int := 100000000

/-- warmPool from `runtime/v2/warm_client.go` (mutex dropped; the manager
back-pointer reduced to the fields warmOne reads from it, namely the state
root used to place warm bundles). -/
structure WarmPool where
  runtime : String
  ns : String
  state : GoPath
  config : WarmPoolConfig
  shims : GoChan WarmShimInstance
  closed : Bool

/-- newWarmPool from `runtime/v2/warm_client.go`: apply defaults for a
non-positive size or timeout and allocate the channel with the effective
size as its capacity. -/
def newWarmPool (runtime ns : String) (stateRoot : GoPath) (config : WarmPoolConfig) :
    WarmPool :=
  let config1 := if config.Size ≤ 0 then { config with Size := defaultWarmPoolSize } else config
  let config2 :=
    if config1.TakeTimeout ≤ 0 then { config1 with TakeTimeout := defaultTakeTimeout }
    else config1
  { runtime := runtime
    ns := ns
    state := stateRoot
    config := config2
    shims := { cap := config2.Size.toNat, buf := [], closed := false }
    closed := false }

/-- Outcome of one warmOne call. -/
inductive WarmOneResult where
  | ok
  | mkdirFailed
  | launchFailed
  | poolFull
  | panicked
deriving DecidableEq, Repr

/-- warmOne from `runtime/v2/warm_client.go`.  The time-derived warm id
and the success of the two external effects (creating the warm bundle
directory, launching the shim with the warmstart action) are parameters;
everything after them follows the source: build the bundle under
state/warm/ns/warmID, wrap the launched shim in a Warming instance, and
attempt the non-blocking channel insert, discarding the instance when the
channel is full. -/
def warmOne (pool : WarmPool) (warmID : String) (mkdirOK launchOK : Bool) :
    WarmOneResult × WarmPool :=
  let warmBundlePath := filepathJoin pool.state ["warm", pool.ns, warmID]
  if !mkdirOK then (.mkdirFailed, pool)
  else if !launchOK then (.launchFailed, pool)
  else
    let bundle : Bundle := { ID := warmID, Path := warmBundlePath, Namespace := pool.ns }
    let w : WarmShimInstance :=
      { shim := { bundle := bundle, client := some () }
        state := ShimState.Warming
        warmID := warmID
        boundID := "" }
    match pool.shims.trySend w with
    | (.sent, ch) => (.ok, { pool with shims := ch })
    | (.full, ch) => (.poolFull, { pool with shims := ch })
    | (.panicked, ch) => (.panicked, { pool with shims := ch })

/-- Start of warmPool from `runtime/v2/warm_client.go`: refuse a closed
pool, then run warmOne once per configured slot, ignoring individual
failures.  The per-iteration external parameters (warm id, directory and
launch outcomes) are supplied as a list consumed in order; the source runs
exactly `config.Size` iterations with time-generated ids, which is one
such list. -/
def warmPoolStart (pool : WarmPool) (params : List (String × Bool × Bool)) :
    Option String × WarmPool :=
  if pool.closed then (some "pool is closed", pool)
  else
    (none, params.foldl (fun p q => (warmOne p q.1 q.2.1 q.2.2).2) pool)

/-- Take of warmPool from `runtime/v2/warm_client.go`: return nil at once
on a closed pool; otherwise receive from the channel under the configured
timeout.  An empty buffer stands for the timeout elapsing with no instance
arriving; the source then returns nil.  The asynchronous refill the source
spawns after a successful receive is a later warmOne step in an operation
sequence.  The Go signature returns only a pointer; there is no error
result. -/
def warmPoolTake (pool : WarmPool) : Option WarmShimInstance × WarmPool :=
  if pool.closed then (none, pool)
  else
    match pool.shims.buf with
    | [] => (none, pool)
    | w :: rest => (some w, { pool with shims := { pool.shims with buf := rest } })

/-- Close of warmPool from `runtime/v2/warm_client.go`: a second call
returns nil immediately; the first call marks the pool closed, closes the
channel, and drains every buffered instance, closing each one and removing
its bundle directory.  The drained (closed and cleaned) instances are
returned so the cleanup effect is observable. -/
def warmPoolClose (pool : WarmPool) :
    Option String × WarmPool × List WarmShimInstance :=
  if pool.closed then (none, pool, [])
  else
    let drained := pool.shims.buf
    (none,
      { pool with
        closed := true
        shims := { pool.shims.closeChan with buf := [] } },
      drained)

/-- Operations a client can perform on one warm pool, with every external
nondeterminism (ids, effect outcomes) supplied in the operation. -/
inductive PoolOp where
  | start (params : List (String × Bool × Bool))
  | warm (warmID : String) (mkdirOK launchOK : Bool)
  | take
  | close
deriving Repr

/-- Apply one operation to a pool state. -/
def poolStep (pool : WarmPool) : PoolOp → WarmPool
  | .start params => (warmPoolStart pool params).2
  | .warm warmID mkdirOK launchOK => (warmOne pool warmID mkdirOK launchOK).2
  | .take => (warmPoolTake pool).2
  | .close => (warmPoolClose pool).2.1

/-- Run a sequence of operations from a state. -/
def poolRun (pool : WarmPool) (ops : List PoolOp) : WarmPool :=
  ops.foldl poolStep pool

/-- Effective pool size: the configured size after newWarmPool applies the
default for non-positive values. -/
def effectiveSize (s : Int) : Int :=
  if s ≤ 0 then defaultWarmPoolSize else s

/-! ## binary.Start of `runtime/v2/binary.go` -/

/-- Prewarm feature gate of binary.Start: the environment variable
CONTAINERD_SHIM_PREWARM must be "1", and when the allowlist variable
CONTAINERD_SHIM_PREWARM_RUNTIMES is non-empty the runtime must appear in
its comma-separated, whitespace-trimmed entries. -/
def computePrewarmEnabled (envPrewarm envAllow runtime : String) : Bool :=
  if envPrewarm = "1" then
    if envAllow ≠ "" then (envAllow.splitOn ",").any (fun r => r.trim = runtime)
    else true
  else false

/-- Result of one shim subprocess invocation (runShim): an error, or the
whitespace-trimmed combined output.  Go keeps a nil byte slice distinct
from an empty one (bytes.TrimSpace returns nil for all-space output), so
the payload is an Option. -/
abbrev RunShimResult := Except String (Option String)

/-- Observable outcome of binary.Start for the launch-and-marker claims:
whether the call returned successfully and whether the shim-binary-path
marker file was written into the bundle directory. -/
structure StartOutcome where
  ok : Bool
  markerWritten : Bool
deriving DecidableEq, Repr

/-- binary.Start from `runtime/v2/binary.go`, reduced to its action
selection, marker write and parse-retry control flow.  External effects
are parameters: the outcome of the prewarm invocation, of up to two start
invocations (consumed in order), whether parseStartResponse accepts a
given response, whether the marker write to the bundle succeeds, and
whether makeConnection succeeds.  The source control flow is followed
step by step: try prewarm when enabled, fall back to start when the
prewarm attempt failed or no response was produced, write the marker when
`!prewarmEnabled || response == nil` at that point, then parse, retrying
start once on a parse failure when prewarm was enabled. -/
def binaryStart (prewarmEnabled : Bool)
    (runPrewarm runStart1 runStart2 : RunShimResult)
    (parseOK : Option String → Bool)
    (writeMarkerOK connOK : Bool) : StartOutcome :=
  let response0 : Option String := none
  let response1 : Option String :=
    if prewarmEnabled then
      match runPrewarm with
      | .ok r => r
      | .error _ => response0
    else response0
  match (if response1 = none then runStart1 else .ok response1) with
  | .error _ => { ok := false, markerWritten := false }
  | .ok response =>
    let markerWritten := !prewarmEnabled || response = none
    if markerWritten && !writeMarkerOK then
      { ok := false, markerWritten := false }
    else
      if parseOK response then
        { ok := connOK, markerWritten := markerWritten }
      else if prewarmEnabled then
        match runStart2 with
        | .error _ => { ok := false, markerWritten := markerWritten }
        | .ok r2 =>
          if parseOK r2 then { ok := connOK, markerWritten := markerWritten }
          else { ok := false, markerWritten := markerWritten }
      else { ok := false, markerWritten := markerWritten }

/-! ## Shim-side warm service (`warmServiceImpl.Bind`) with a file model

The filesystem is a finite map from segment paths to file contents.
Directories are not tracked; os.MkdirAll and os.Chdir can still fail for
external reasons and keep their error branches through Boolean
parameters.  os.Rename fails in the model exactly when the source file is
missing; an external rename failure with the source present is covered by
the `renameOK` parameter, in which case the code falls back to
read-write-remove, whose write can itself fail (`copyOK`).  The final
os.Remove of the fallback has its error ignored by the source. -/

/-- Finite-map filesystem: association list from paths to contents. -/
abbrev FS := List (GoPath × String)

/-- Read a file: the content stored at the path, if any. -/
def fsRead (fs : FS) (p : GoPath) : Option String :=
  (fs.find? (fun e => decide (e.1 = p))).map (·.2)

/-- Remove a file at a path. -/
def fsRemove (fs : FS) (p : GoPath) : FS :=
  fs.filter (fun e => decide (e.1 ≠ p))

/-- Write a file, overwriting any previous content. -/
def fsWrite (fs : FS) (p : GoPath) (data : String) : FS :=
  fsRemove fs p ++ [(p, data)]

/-- warmServiceImpl state from the shim-side warm service. -/
structure WarmServiceImpl where
  warmID : String
  boundID : String
  bundlePath : GoPath
deriving DecidableEq, Repr

/-- NewWarmService from the shim-side warm service. -/
def NewWarmService (warmID : String) (bundlePath : GoPath) : WarmServiceImpl :=
  { warmID := warmID, boundID := "", bundlePath := bundlePath }

/-- Shim-side WarmBindRequest (`part_010`); the rootfs and options fields
are carried but unread by Bind. -/
structure ShimBindRequest where
  ID : String
  Bundle : GoPath
  Rootfs : List Mount
  Stdin : String
  Stdout : String
  Stderr : String
  Terminal : Bool
  Options : String
deriving DecidableEq, Repr

/-- Bind of warmServiceImpl: validate the id and bundle, create the target
directory, move the address file from the old bundle path to the new one
(falling back to copy-and-delete, with any relocation failure silently
dropped), update the internal binding state, change the working directory
and acknowledge ready. -/
def warmServiceBind (w : WarmServiceImpl) (req : ShimBindRequest) (fs : FS)
    (mkdirOK renameOK copyOK chdirOK : Bool) :
    Except String WarmBindResponse × WarmServiceImpl × FS :=
  if req.ID = "" then (.error "bind request missing container ID", w, fs)
  else if req.Bundle = ([] : GoPath) then
    (.error "bind request missing bundle path", w, fs)
  else if !mkdirOK then (.error "failed to create bundle directory", w, fs)
  else
    let oldAddressPath := filepathJoin w.bundlePath ["address"]
    let newAddressPath := filepathJoin req.Bundle ["address"]
    let fs1 :=
      match fsRead fs oldAddressPath with
      | none => fs
      | some data =>
        if renameOK then fsWrite (fsRemove fs oldAddressPath) newAddressPath data
        else if copyOK then fsRemove (fsWrite fs newAddressPath data) oldAddressPath
        else fs
    let w1 := { w with boundID := req.ID, bundlePath := req.Bundle }
    if !chdirOK then (.error "failed to change to bundle directory", w1, fs1)
    else (.ok { Ready := true }, w1, fs1)

/-! ## ShimPool (`part_009`)

Go maps are embedded as association lists with unique keys; assignment,
lookup and delete have exactly the Go map semantics, and since Go map
iteration order is unspecified and the one iterating operation (Prune)
acts on each key independently, the list order of the map entries is
unobservable.  PoolItem values are heap-allocated in Go and shared by
pointer between the per-key lists and the address index; the embedding
makes the heap explicit: a map from allocation references (Nat) to item
values, with the lists and the index holding references. -/

/-- Association-list lookup with Go map semantics. -/
def alistLookup {κ β : Type} [DecidableEq κ] (l : List (κ × β)) (k : κ) : Option β :=
  (l.find? (fun e => decide (e.1 = k))).map (·.2)

/-- Association-list assignment with Go map semantics: overwrite the
entry in place, or append a new one. -/
def alistInsert {κ β : Type} [DecidableEq κ] (l : List (κ × β)) (k : κ) (v : β) :
    List (κ × β) :=
  if (l.find? (fun e => decide (e.1 = k))).isSome then
    l.map (fun e => if e.1 = k then (k, v) else e)
  else l ++ [(k, v)]

/-- Association-list delete with Go map semantics. -/
def alistErase {κ β : Type} [DecidableEq κ] (l : List (κ × β)) (k : κ) :
    List (κ × β) :=
  l.filter (fun e => decide (e.1 ≠ k))

/-- PoolItem from `part_009`.  LastActive is a clock reading in
nanoseconds; IdleTTL comparisons use integer arithmetic on it. -/
structure PoolItem where
  Address : String
  PID : Int
  Namespace : String
  Runtime : String
  Idle : Bool
  LastActive : Int
deriving DecidableEq, Repr

/-- ShimPool state from `part_009`: the item heap (explicit pointer
store), the next fresh reference, the per-(namespace,runtime) lists of
references, the address index, and the pruning knobs. -/
structure ShimPool where
  heap : List (Nat × PoolItem)
  nextRef : Nat
  items : List (String × List Nat)
  index : List (String × Nat)
  IdleTTL : Int
  HealthTimeout : Int

/-- NewShimPool from `part_009`: empty maps and default knobs (10 minutes
and 5 seconds, in nanoseconds). -/
def NewShimPool : ShimPool :=
  { heap := []
    nextRef := 0
    items := []
    index := []
    IdleTTL := 600000000000
    HealthTimeout := 5000000000 }

/-- key of ShimPool: the namespace and runtime joined with a bar. -/
def ShimPool.key (ns runtime : String) : String := ns ++ "|" ++ runtime

/-- Dereference a pool item pointer. -/
def ShimPool.heapGet (p : ShimPool) (r : Nat) : Option PoolItem :=
  alistLookup p.heap r

/-- Mutate the pool item a pointer refers to. -/
def heapUpdate (h : List (Nat × PoolItem)) (r : Nat) (f : PoolItem → PoolItem) :
    List (Nat × PoolItem) :=
  h.map (fun e => if e.1 = r then (e.1, f e.2) else e)

/-- List of references stored under a key (a missing key is the nil
slice). -/
def ShimPool.itemsGet (p : ShimPool) (k : String) : List Nat :=
  (alistLookup p.items k).getD []

/-- Register from `part_009`: allocate a fresh idle item, append its
pointer to the list under key(ns, runtime) and index it by address.  The
clock reading for LastActive is a parameter. -/
def ShimPool.register (p : ShimPool) (ns runtime address : String) (pid : Int)
    (now : Int) : ShimPool × Nat :=
  let item : PoolItem :=
    { Address := address, PID := pid, Namespace := ns, Runtime := runtime
      Idle := true, LastActive := now }
  let r := p.nextRef
  let k := ShimPool.key ns runtime
  ({ p with
      heap := p.heap ++ [(r, item)]
      nextRef := r + 1
      items := alistInsert p.items k (p.itemsGet k ++ [r])
      index := alistInsert p.index address r },
    r)

/-- First pointer in a list whose item is idle. -/
def findIdleRef (h : List (Nat × PoolItem)) : List Nat → Option Nat
  | [] => none
  | r :: rest =>
    match alistLookup h r with
    | some it => if it.Idle then some r else findIdleRef h rest
    | none => findIdleRef h rest

/-- GetIdle from `part_009`: walk the list under key(ns, runtime) and claim
the first idle item, marking it busy and refreshing LastActive. -/
def ShimPool.getIdle (p : ShimPool) (ns runtime : String) (now : Int) :
    Option Nat × ShimPool :=
  let k := ShimPool.key ns runtime
  match findIdleRef p.heap (p.itemsGet k) with
  | none => (none, p)
  | some r =>
    let h := heapUpdate p.heap r (fun it => { it with Idle := false, LastActive := now })
    (some r, { p with heap := h })

/-- Return from `part_009`: look the address up in the index and mark the
item idle again, refreshing LastActive; a miss is a no-op. -/
def ShimPool.ret (p : ShimPool) (address : String) (now : Int) : ShimPool :=
  match alistLookup p.index address with
  | none => p
  | some r =>
    let h := heapUpdate p.heap r (fun it => { it with Idle := true, LastActive := now })
    { p with heap := h }

/-- Remove from `part_009`: drop the address from the index, filter every
pointer whose item carries that address out of the list under
key(ns, item.Runtime), and delete the key when the list becomes empty. -/
def ShimPool.remove (p : ShimPool) (ns : String) (item : PoolItem) : ShimPool :=
  let index1 := alistErase p.index item.Address
  let k := ShimPool.key ns item.Runtime
  let list := p.itemsGet k
  let out := list.filter (fun r =>
    match alistLookup p.heap r with
    | some it => decide (it.Address ≠ item.Address)
    | none => true)
  { p with
    index := index1
    items := if out = [] then alistErase p.items k else alistInsert p.items k out }

/-- Pruning condition of Prune: idle, positive TTL, and inactive longer
than the TTL. -/
def ShimPool.expired (p : ShimPool) (now : Int) (r : Nat) : Bool :=
  match alistLookup p.heap r with
  | some it => it.Idle && p.IdleTTL > 0 && now - it.LastActive > p.IdleTTL
  | none => false

/-- Prune from `part_009`.  The source ranges over the items map, and for
each key independently filters out expired items, deletes their addresses
from the index, and replaces or deletes the list; since the per-key steps
touch disjoint entries they commute, and the loop is embedded as the
simultaneous transformation of all entries. -/
def ShimPool.prune (p : ShimPool) (now : Int) : ShimPool :=
  let prunedAddrs : List String :=
    ((p.items.map (·.2)).flatten.filter (p.expired now)).filterMap
      (fun r => (alistLookup p.heap r).map (·.Address))
  { p with
    items := (p.items.map (fun e => (e.1, e.2.filter (fun r => !p.expired now r)))).filter
      (fun e => !e.2.isEmpty)
    index := p.index.filter (fun e => !prunedAddrs.contains e.1) }

/-- Len from `part_009`: the size of the address index. -/
def ShimPool.len (p : ShimPool) : Nat := p.index.length

/-- Every pool item pointer reachable from the per-key lists, in order. -/
def ShimPool.allRefs (p : ShimPool) : List Nat := (p.items.map (·.2)).flatten

/-- Total number of items across all per-key lists. -/
def ShimPool.totalItems (p : ShimPool) : Nat := p.allRefs.length

/-- Reachability of a pool item pointer from the per-key lists. -/
def ShimPool.listed (p : ShimPool) (r : Nat) : Prop :=
  ∃ e ∈ p.items, r ∈ e.2

instance (p : ShimPool) (r : Nat) : Decidable (p.listed r) :=
  inferInstanceAs (Decidable (∃ e ∈ p.items, r ∈ e.2))

/-- Consistency of one listed pointer: it dereferences to an item whose
key matches the list it sits in and whose address indexes it. -/
def ShimPool.refOK (p : ShimPool) (k : String) (r : Nat) : Prop :=
  match p.heapGet r with
  | none => False
  | some it =>
    k = ShimPool.key it.Namespace it.Runtime ∧ alistLookup p.index it.Address = some r

instance (p : ShimPool) (k : String) (r : Nat) : Decidable (p.refOK k r) := by
  unfold ShimPool.refOK
  match p.heapGet r with
  | none => exact inferInstanceAs (Decidable False)
  | some it => exact inferInstanceAs (Decidable (_ ∧ _))

/-- Consistency of one index entry: it dereferences to an item carrying
the indexed address, and the pointer is reachable from the lists. -/
def ShimPool.indexOK (p : ShimPool) (a : String) (r : Nat) : Prop :=
  match p.heapGet r with
  | none => False
  | some it => it.Address = a ∧ p.listed r

instance (p : ShimPool) (a : String) (r : Nat) : Decidable (p.indexOK a r) := by
  unfold ShimPool.indexOK
  match p.heapGet r with
  | none => exact inferInstanceAs (Decidable False)
  | some it => exact inferInstanceAs (Decidable (_ ∧ _))

/-- Consistency invariant of the pool state: a well-formed heap and maps
(unique keys, allocated pointers below the allocation counter), no key
mapping to an empty list, duplicate-free lists whose every pointer is
consistent, and every index entry consistent.  Together these force every
indexed item to sit in exactly one list, every listed item to be indexed
under its address, and the index size to equal the total list size. -/
def ShimPool.Inv (p : ShimPool) : Prop :=
  (p.heap.map (·.1)).Nodup ∧
  (∀ e ∈ p.heap, e.1 < p.nextRef) ∧
  (p.items.map (·.1)).Nodup ∧
  (p.index.map (·.1)).Nodup ∧
  (∀ e ∈ p.items, e.2 ≠ []) ∧
  (∀ e ∈ p.items, e.2.Nodup) ∧
  (∀ e ∈ p.items, ∀ r ∈ e.2, p.refOK e.1 r) ∧
  (∀ e ∈ p.index, p.indexOK e.1 e.2)

instance (p : ShimPool) : Decidable p.Inv := by
  unfold ShimPool.Inv
  infer_instance

/-- Precondition under which Remove is meaningful: the given item either
has no indexed address at all, or the index resolves its address to a live
item sitting in the very list Remove searches, the one under
key(ns, item.Runtime). -/
def ShimPool.removePre (p : ShimPool) (ns : String) (item : PoolItem) : Prop :=
  match alistLookup p.index item.Address with
  | none => True
  | some r =>
    match p.heapGet r with
    | none => False
    | some it => ShimPool.key ns item.Runtime = ShimPool.key it.Namespace it.Runtime

instance (p : ShimPool) (ns : String) (item : PoolItem) :
    Decidable (p.removePre ns item) := by
  unfold ShimPool.removePre
  split
  · exact inferInstanceAs (Decidable True)
  · split
    · exact inferInstanceAs (Decidable False)
    · exact inferInstanceAs (Decidable (_ = _))

/-! ## Theorems -/

theorem dropLast_append_singleton {α : Type} (l : List α) (a : α) :
    (l ++ [a]).dropLast = l := by
  simp

/-- C5: for every warm shim whose bundle path has the warmOne shape
state-root/warm/ns/warm-id, the real bundle path computed by stripping
three trailing segments and re-joining equals exactly
state-root/namespace/id; the computation reads only the stored bundle
path, the stored namespace and the requested container id. -/
theorem bindRealBundle_reanchors (stateRoot : GoPath) (ns warmID : String)
    (w : WarmShimInstance) (id : String)
    (h : w.shim.bundle.Path = filepathJoin stateRoot ["warm", ns, warmID]) :
    bindRealBundle w id = filepathJoin stateRoot [w.shim.bundle.Namespace, id] := by
  have hsplit : filepathJoin stateRoot ["warm", ns, warmID]
      = ((stateRoot ++ ["warm"]) ++ [ns]) ++ [warmID] := by
    simp [filepathJoin]
  unfold bindRealBundle filepathDir
  rw [h, hsplit]
  simp [filepathJoin]

theorem bindRealBundle_reanchors_witness :
    bindRealBundle
        { shim :=
            { bundle :=
                { ID := "warm-7"
                  Path := ["run", "containerd", "task", "warm", "default", "warm-7"]
                  Namespace := "default" }
              client := some () }
          state := ShimState.Warming
          warmID := "warm-7"
          boundID := "" } "ctr1"
      = ["run", "containerd", "task", "default", "ctr1"] := by
  have h := bindRealBundle_reanchors ["run", "containerd", "task"] "default" "warm-7"
    { shim :=
        { bundle :=
            { ID := "warm-7"
              Path := ["run", "containerd", "task", "warm", "default", "warm-7"]
              Namespace := "default" }
          client := some () }
      state := ShimState.Warming
      warmID := "warm-7"
      boundID := "" } "ctr1" (by rfl)
  simpa [filepathJoin] using h

/-- C7: Bind on an instance whose state is not Warming fails immediately
with an error and returns the instance unchanged: boundID, state and the
bundle identity and path are untouched. -/
theorem warmShimInstanceBind_guard (w : WarmShimInstance) (id : String)
    (opts : CreateOpts) (h : w.state ≠ ShimState.Warming) :
    warmShimInstanceBind w id opts = (.error "warm shim not in warming state", w) := by
  unfold warmShimInstanceBind
  rw [if_pos h]

theorem warmShimInstanceBind_guard_witness :
    warmShimInstanceBind
        { shim :=
            { bundle := { ID := "c0", Path := ["run", "default", "c0"], Namespace := "default" }
              client := some () }
          state := ShimState.Bound
          warmID := "warm-1"
          boundID := "c0" } "c1"
        { Rootfs := []
          IOcfg := { Stdin := "", Stdout := "", Stderr := "", Terminal := false }
          RuntimeOptions := "" }
      = (.error "warm shim not in warming state",
        { shim :=
            { bundle := { ID := "c0", Path := ["run", "default", "c0"], Namespace := "default" }
              client := some () }
          state := ShimState.Bound
          warmID := "warm-1"
          boundID := "c0" }) :=
  warmShimInstanceBind_guard
    { shim :=
        { bundle := { ID := "c0", Path := ["run", "default", "c0"], Namespace := "default" }
          client := some () }
      state := ShimState.Bound
      warmID := "warm-1"
      boundID := "c0" } "c1"
    { Rootfs := []
      IOcfg := { Stdin := "", Stdout := "", Stderr := "", Terminal := false }
      RuntimeOptions := "" } (by decide)

/-- C8: Take on a pool already marked closed, and Take whose wait ends
with no instance buffered in the channel, both return nil (no instance)
and leave the pool unchanged; the Go signature carries no error value at
all, so no error can be reported. -/
theorem warmPoolTake_unavailable (pool : WarmPool)
    (h : pool.closed = true ∨ pool.shims.buf = []) :
    warmPoolTake pool = (none, pool) := by
  unfold warmPoolTake
  rcases h with h | h
  · rw [if_pos h]
  · by_cases hc : pool.closed = true
    · rw [if_pos hc]
    · rw [if_neg hc, h]

theorem warmPoolTake_unavailable_witness :
    warmPoolTake
        (warmPoolClose
          (newWarmPool "io.containerd.runc.v2" "default" ["run", "task"]
            { Size := 2, TakeTimeout := 0, Enabled := true })).2.1
      = (none,
        (warmPoolClose
          (newWarmPool "io.containerd.runc.v2" "default" ["run", "task"]
            { Size := 2, TakeTimeout := 0, Enabled := true })).2.1) :=
  warmPoolTake_unavailable
    (warmPoolClose
      (newWarmPool "io.containerd.runc.v2" "default" ["run", "task"]
        { Size := 2, TakeTimeout := 0, Enabled := true })).2.1
    (Or.inl (by decide))

theorem warmPoolClose_of_closed (pool : WarmPool) (h : pool.closed = true) :
    warmPoolClose pool = (none, pool, []) := by
  unfold warmPoolClose
  rw [if_pos h]

theorem warmPoolClose_closed_after (pool : WarmPool) :
    (warmPoolClose pool).2.1.closed = true := by
  unfold warmPoolClose
  by_cases h : pool.closed = true
  · rw [if_pos h]
    exact h
  · rw [if_neg h]

/-- C10: Close is idempotent.  A first Close on an open pool returns nil,
marks the pool closed, closes and empties the channel, and drains exactly
the buffered instances (each then closed and its bundle directory
removed), which also covers the already-empty channel; Close on the
resulting pool, and on any already-closed pool, returns nil and changes
nothing. -/
theorem warmPoolClose_idempotent (pool : WarmPool) :
    (pool.closed = false →
      warmPoolClose pool
        = (none,
          { pool with
            closed := true
            shims := { pool.shims.closeChan with buf := [] } },
          pool.shims.buf)) ∧
    warmPoolClose (warmPoolClose pool).2.1 = (none, (warmPoolClose pool).2.1, []) := by
  constructor
  · intro h
    unfold warmPoolClose
    rw [if_neg (by simp [h])]
  · exact warmPoolClose_of_closed _ (warmPoolClose_closed_after pool)

theorem warmPoolClose_idempotent_witness :
    (warmPoolClose
        (newWarmPool "io.containerd.runc.v2" "default" ["run", "task"]
          { Size := 2, TakeTimeout := 0, Enabled := true })
      = (none,
        { (newWarmPool "io.containerd.runc.v2" "default" ["run", "task"]
            { Size := 2, TakeTimeout := 0, Enabled := true }) with
          closed := true
          shims :=
            { (newWarmPool "io.containerd.runc.v2" "default" ["run", "task"]
                { Size := 2, TakeTimeout := 0, Enabled := true }).shims.closeChan with
              buf := [] } },
        (newWarmPool "io.containerd.runc.v2" "default" ["run", "task"]
          { Size := 2, TakeTimeout := 0, Enabled := true }).shims.buf)) :=
  (warmPoolClose_idempotent
    (newWarmPool "io.containerd.runc.v2" "default" ["run", "task"]
      { Size := 2, TakeTimeout := 0, Enabled := true })).1 (by decide)

/-- C4 counterexample: on a Warming instance whose bind RPC fails (nil
shim client), Bind returns an error, yet boundID has been overwritten
with the requested id instead of staying empty as the claim states. -/
theorem warmShimInstanceBind_boundID_cex :
    ((warmShimInstanceBind
        { shim :=
            { bundle :=
                { ID := "warm-1", Path := ["run", "task", "warm", "default", "warm-1"]
                  Namespace := "default" }
              client := none }
          state := ShimState.Warming
          warmID := "warm-1"
          boundID := "" } "c1"
        { Rootfs := []
          IOcfg := { Stdin := "", Stdout := "", Stderr := "", Terminal := false }
          RuntimeOptions := "" }).1.isOk = false) ∧
    ((warmShimInstanceBind
        { shim :=
            { bundle :=
                { ID := "warm-1", Path := ["run", "task", "warm", "default", "warm-1"]
                  Namespace := "default" }
              client := none }
          state := ShimState.Warming
          warmID := "warm-1"
          boundID := "" } "c1"
        { Rootfs := []
          IOcfg := { Stdin := "", Stdout := "", Stderr := "", Terminal := false }
          RuntimeOptions := "" }).2.boundID = "c1") := by
  constructor
  · rfl
  · rfl

/-- C4 amended: on a Warming instance, a successful bind RPC moves the
state to Bound, sets boundID and overwrites the bundle identity and path
with the real values; a failing bind RPC (nil shim client) returns an
error and leaves state Warming and the bundle untouched, but boundID has
already been overwritten with the requested id before the RPC and is not
rolled back. -/
theorem warmShimInstanceBind_amended (w : WarmShimInstance) (id : String)
    (opts : CreateOpts) (h : w.state = ShimState.Warming) :
    (w.shim.client = none →
      (warmShimInstanceBind w id opts).1.isOk = false ∧
      (warmShimInstanceBind w id opts).2.state = ShimState.Warming ∧
      (warmShimInstanceBind w id opts).2.shim = w.shim ∧
      (warmShimInstanceBind w id opts).2.boundID = id) ∧
    (∀ c, w.shim.client = some c →
      (warmShimInstanceBind w id opts).1 = .ok () ∧
      (warmShimInstanceBind w id opts).2.state = ShimState.Bound ∧
      (warmShimInstanceBind w id opts).2.boundID = id ∧
      (warmShimInstanceBind w id opts).2.shim.bundle.ID = id ∧
      (warmShimInstanceBind w id opts).2.shim.bundle.Path = bindRealBundle w id ∧
      (warmShimInstanceBind w id opts).2.shim.bundle.Namespace
        = w.shim.bundle.Namespace) := by
  constructor
  · intro hc
    simp [warmShimInstanceBind, h, callBindRPC, NewWarmClient, hc, Except.isOk, Except.toBool]
  · intro c hc
    simp [warmShimInstanceBind, h, callBindRPC, NewWarmClient, hc, warmClientImplBind,
      bindRealBundle, filepathDir, filepathJoin]

theorem warmShimInstanceBind_amended_witness :
    ((warmShimInstanceBind
        { shim :=
            { bundle :=
                { ID := "warm-2", Path := ["run", "task", "warm", "default", "warm-2"]
                  Namespace := "default" }
              client := some () }
          state := ShimState.Warming
          warmID := "warm-2"
          boundID := "" } "c2"
        { Rootfs := []
          IOcfg := { Stdin := "", Stdout := "", Stderr := "", Terminal := false }
          RuntimeOptions := "" }).1 = .ok ()) ∧
    ((warmShimInstanceBind
        { shim :=
            { bundle :=
                { ID := "warm-2", Path := ["run", "task", "warm", "default", "warm-2"]
                  Namespace := "default" }
              client := some () }
          state := ShimState.Warming
          warmID := "warm-2"
          boundID := "" } "c2"
        { Rootfs := []
          IOcfg := { Stdin := "", Stdout := "", Stderr := "", Terminal := false }
          RuntimeOptions := "" }).2.state = ShimState.Bound) := by
  have h := (warmShimInstanceBind_amended
    { shim :=
        { bundle :=
            { ID := "warm-2", Path := ["run", "task", "warm", "default", "warm-2"]
              Namespace := "default" }
          client := some () }
      state := ShimState.Warming
      warmID := "warm-2"
      boundID := "" } "c2"
    { Rootfs := []
      IOcfg := { Stdin := "", Stdout := "", Stderr := "", Terminal := false }
      RuntimeOptions := "" } (by rfl)).2 () (by rfl)
  exact ⟨h.1, h.2.1⟩

/-- C1 (behavior of the code at the failing input): after a completed
Close on an open pool, a warmOne call that reaches its insert step does
not discard its instance and return; the non-blocking send hits the
closed channel, which in Go proceeds by panicking (a send on a closed
channel counts as ready inside a select, so the default branch is not
taken). -/
theorem warmOne_after_close_panics (pool : WarmPool) (warmID : String)
    (h : pool.closed = false) :
    (warmOne (warmPoolClose pool).2.1 warmID true true).1 = WarmOneResult.panicked := by
  have hc : (warmPoolClose pool).2.1.shims.closed = true := by
    simp [warmPoolClose, h, GoChan.closeChan]
  simp [warmOne, GoChan.trySend, hc]

theorem warmOne_after_close_panics_witness :
    (warmOne
        (warmPoolClose
          (newWarmPool "io.containerd.runc.v2" "default" ["run", "task"]
            { Size := 2, TakeTimeout := 0, Enabled := true })).2.1
        "warm-default-77" true true).1 = WarmOneResult.panicked :=
  warmOne_after_close_panics
    (newWarmPool "io.containerd.runc.v2" "default" ["run", "task"]
      { Size := 2, TakeTimeout := 0, Enabled := true })
    "warm-default-77" (by decide)

/-- C2 (behavior of the code at the failing input): with prewarm enabled,
a failed prewarm attempt followed by a successful fallback start launch
succeeds but does not write the shim-binary-path marker, because at the
marker write the condition reads the start output through `response`, so
`!prewarmEnabled || response == nil` is false; for contrast, the plain
cold path writes the marker and the successful prewarm path does not. -/
theorem binaryStart_marker_behavior :
    binaryStart true (.error "prewarm failed") (.ok (some "params")) (.ok none)
        (fun _ => true) true true
      = { ok := true, markerWritten := false } ∧
    binaryStart false (.error "prewarm failed") (.ok (some "params")) (.ok none)
        (fun _ => true) true true
      = { ok := true, markerWritten := true } ∧
    binaryStart true (.ok (some "params")) (.error "unused") (.ok none)
        (fun _ => true) true true
      = { ok := true, markerWritten := false } :=
  ⟨rfl, rfl, rfl⟩

/-- C3 counterexample: a Bind request with non-empty ID and Bundle against
a filesystem holding no address file at the old bundle path returns
Ready = true although the address file is absent from the new bundle
path; the failed relocation is silently swallowed. -/
theorem warmServiceBind_ready_without_address :
    ((warmServiceBind (NewWarmService "warm-1" ["run", "warm", "default", "warm-1"])
        { ID := "c1", Bundle := ["run", "default", "c1"], Rootfs := [], Stdin := ""
          Stdout := "", Stderr := "", Terminal := false, Options := "" }
        [] true true true true).1 = .ok { Ready := true }) ∧
    (fsRead
        (warmServiceBind (NewWarmService "warm-1" ["run", "warm", "default", "warm-1"])
          { ID := "c1", Bundle := ["run", "default", "c1"], Rootfs := [], Stdin := ""
            Stdout := "", Stderr := "", Terminal := false, Options := "" }
          [] true true true true).2.2
        ["run", "default", "c1", "address"] = none) := by
  constructor
  · rfl
  · rfl

theorem fsRead_fsRemove_self (fs : FS) (p : GoPath) : fsRead (fsRemove fs p) p = none := by
  unfold fsRead
  rw [List.find?_eq_none.2]
  · rfl
  · intro e he
    have := List.of_mem_filter he
    simp at this
    simp [this]

theorem fsRead_fsWrite_self (fs : FS) (p : GoPath) (d : String) :
    fsRead (fsWrite fs p d) p = some d := by
  unfold fsWrite fsRead
  rw [List.find?_append]
  have h1 : (fsRemove fs p).find? (fun e => decide (e.1 = p)) = none := by
    rw [List.find?_eq_none]
    intro e he
    have := List.of_mem_filter he
    simp at this
    simp [this]
  rw [h1]
  simp

theorem find?_filter_imp {α : Type} (l : List α) (f g : α → Bool)
    (h : ∀ a, f a = true → g a = true) :
    (l.filter g).find? f = l.find? f := by
  induction l with
  | nil => rfl
  | cons e rest ih =>
    by_cases hg : g e = true
    · rw [List.filter_cons_of_pos hg]
      cases hf : f e
      · rw [List.find?_cons_of_neg _ (by simp [hf]), List.find?_cons_of_neg _ (by simp [hf])]
        exact ih
      · rw [List.find?_cons_of_pos _ hf, List.find?_cons_of_pos _ hf]
    · rw [List.filter_cons_of_neg hg]
      have hf : ¬(f e = true) := fun hf => hg (h e hf)
      rw [List.find?_cons_of_neg _ (by simpa using hf)]
      exact ih

theorem fsRead_fsRemove_ne (fs : FS) (p q : GoPath) (h : p ≠ q) :
    fsRead (fsRemove fs q) p = fsRead fs p := by
  unfold fsRead fsRemove
  rw [find?_filter_imp]
  intro a ha
  simp at ha
  simp [ha]
  exact fun hq => h (hq ▸ ha ▸ rfl)

/-- C3 amended: a Bind request with non-empty ID and Bundle (and
successful directory creation and working-directory change) always
returns Ready = true, whether or not the relocation of the address file
succeeded; when the address file exists at the old bundle path and the
rename succeeds, or the copy fallback succeeds and the two bundle paths
differ, the file is present at the new bundle path on return.  A failed
relocation is swallowed and Bind reports ready regardless. -/
theorem warmServiceBind_amended (w : WarmServiceImpl) (req : ShimBindRequest) (fs : FS)
    (renameOK copyOK : Bool) (hid : req.ID ≠ "") (hb : req.Bundle ≠ ([] : GoPath)) :
    (warmServiceBind w req fs true renameOK copyOK true).1 = .ok { Ready := true } ∧
    (∀ data, fsRead fs (filepathJoin w.bundlePath ["address"]) = some data →
      (renameOK = true →
        fsRead (warmServiceBind w req fs true renameOK copyOK true).2.2
          (filepathJoin req.Bundle ["address"]) = some data) ∧
      (copyOK = true → w.bundlePath ≠ req.Bundle →
        fsRead (warmServiceBind w req fs true renameOK copyOK true).2.2
          (filepathJoin req.Bundle ["address"]) = some data)) := by
  constructor
  · simp [warmServiceBind, hid, hb]
  · intro data hdata
    constructor
    · intro hrn
      simp [warmServiceBind, hid, hb, hdata, hrn]
      exact fsRead_fsWrite_self _ _ _
    · intro hcp hne
      by_cases hrn : renameOK = true
      · simp [warmServiceBind, hid, hb, hdata, hrn]
        exact fsRead_fsWrite_self _ _ _
      · have hrn' : renameOK = false := by
          cases renameOK
          · rfl
          · exact absurd rfl hrn
        have hpne : filepathJoin req.Bundle ["address"]
            ≠ filepathJoin w.bundlePath ["address"] := by
          intro hcon
          exact hne (List.append_cancel_right hcon).symm
        simp [warmServiceBind, hid, hb, hdata, hrn', hcp]
        rw [fsRead_fsRemove_ne _ _ _ hpne]
        exact fsRead_fsWrite_self _ _ _

theorem warmServiceBind_amended_witness :
    ((warmServiceBind (NewWarmService "warm-3" ["run", "warm", "default", "warm-3"])
        { ID := "c3", Bundle := ["run", "default", "c3"], Rootfs := [], Stdin := ""
          Stdout := "", Stderr := "", Terminal := false, Options := "" }
        [(["run", "warm", "default", "warm-3", "address"], "unix:///sock")]
        true true true true).1 = .ok { Ready := true }) ∧
    (fsRead
        (warmServiceBind (NewWarmService "warm-3" ["run", "warm", "default", "warm-3"])
          { ID := "c3", Bundle := ["run", "default", "c3"], Rootfs := [], Stdin := ""
            Stdout := "", Stderr := "", Terminal := false, Options := "" }
          [(["run", "warm", "default", "warm-3", "address"], "unix:///sock")]
          true true true true).2.2
        (filepathJoin ["run", "default", "c3"] ["address"]) = some "unix:///sock") := by
  have h := warmServiceBind_amended
    (NewWarmService "warm-3" ["run", "warm", "default", "warm-3"])
    { ID := "c3", Bundle := ["run", "default", "c3"], Rootfs := [], Stdin := ""
      Stdout := "", Stderr := "", Terminal := false, Options := "" }
    [(["run", "warm", "default", "warm-3", "address"], "unix:///sock")]
    true true (by decide) (by decide)
  exact ⟨h.1, ((h.2 "unix:///sock" (by rfl)).1 rfl)⟩

theorem trySend_bound {α : Type} (ch : GoChan α) (a : α) (h : ch.buf.length ≤ ch.cap) :
    (ch.trySend a).2.cap = ch.cap ∧ (ch.trySend a).2.buf.length ≤ ch.cap := by
  unfold GoChan.trySend
  by_cases hc : ch.closed = true
  · simp [hc]
    exact h
  · simp [hc]
    by_cases hl : ch.buf.length < ch.cap
    · simp [hl]
      omega
    · simp [hl]
      exact h

theorem warmOne_bound (pool : WarmPool) (warmID : String) (mkdirOK launchOK : Bool)
    (h : pool.shims.buf.length ≤ pool.shims.cap) :
    (warmOne pool warmID mkdirOK launchOK).2.shims.cap = pool.shims.cap ∧
    (warmOne pool warmID mkdirOK launchOK).2.shims.buf.length ≤ pool.shims.cap := by
  unfold warmOne
  by_cases hm : mkdirOK
  · by_cases hl : launchOK
    · simp only [hm, hl, Bool.not_true]
      have hb := trySend_bound pool.shims
        { shim :=
            { bundle :=
                { ID := warmID, Path := filepathJoin pool.state ["warm", pool.ns, warmID]
                  Namespace := pool.ns }
              client := some () }
          state := ShimState.Warming, warmID := warmID, boundID := "" } h
      rcases hts : pool.shims.trySend
        { shim :=
            { bundle :=
                { ID := warmID, Path := filepathJoin pool.state ["warm", pool.ns, warmID]
                  Namespace := pool.ns }
              client := some () }
          state := ShimState.Warming, warmID := warmID, boundID := "" } with ⟨res, ch⟩
      rw [hts] at hb
      cases res
      all_goals simpa using hb
    · simp [hm, hl, h]
  · simp [hm, h]

theorem warmPoolStart_bound (pool : WarmPool) (params : List (String × Bool × Bool))
    (h : pool.shims.buf.length ≤ pool.shims.cap) :
    (warmPoolStart pool params).2.shims.cap = pool.shims.cap ∧
    (warmPoolStart pool params).2.shims.buf.length ≤ pool.shims.cap := by
  unfold warmPoolStart
  by_cases hc : pool.closed = true
  · simp [hc, h]
  · simp only [hc, if_neg]
    clear hc
    induction params generalizing pool with
    | nil => exact ⟨rfl, h⟩
    | cons q rest ih =>
      simp only [List.foldl_cons]
      have h1 := warmOne_bound pool q.1 q.2.1 q.2.2 h
      have h2 := ih (warmOne pool q.1 q.2.1 q.2.2).2 (h1.1 ▸ h1.2)
      exact ⟨h2.1.trans h1.1, h1.1 ▸ h2.2⟩

theorem warmPoolTake_bound (pool : WarmPool)
    (h : pool.shims.buf.length ≤ pool.shims.cap) :
    (warmPoolTake pool).2.shims.cap = pool.shims.cap ∧
    (warmPoolTake pool).2.shims.buf.length ≤ pool.shims.cap := by
  unfold warmPoolTake
  by_cases hc : pool.closed = true
  · simp [hc, h]
  · simp only [hc, if_neg]
    rcases hb : pool.shims.buf with _ | ⟨w, rest⟩
    · exact ⟨rfl, h⟩
    · refine ⟨rfl, ?_⟩
      simp only
      rw [hb] at h
      simp at h
      simpa using Nat.le_of_succ_le (Nat.succ_le_of_lt (Nat.lt_of_succ_le h))

theorem poolStep_bound (pool : WarmPool) (op : PoolOp)
    (h : pool.shims.buf.length ≤ pool.shims.cap) :
    (poolStep pool op).shims.cap = pool.shims.cap ∧
    (poolStep pool op).shims.buf.length ≤ pool.shims.cap := by
  cases op with
  | start params => exact warmPoolStart_bound pool params h
  | warm warmID mkdirOK launchOK => exact warmOne_bound pool warmID mkdirOK launchOK h
  | take => exact warmPoolTake_bound pool h
  | close =>
    unfold poolStep warmPoolClose
    by_cases hc : pool.closed = true
    · simp [hc, h]
    · simp [hc, GoChan.closeChan]

theorem poolRun_bound (pool : WarmPool) (ops : List PoolOp)
    (h : pool.shims.buf.length ≤ pool.shims.cap) :
    (poolRun pool ops).shims.cap = pool.shims.cap ∧
    (poolRun pool ops).shims.buf.length ≤ pool.shims.cap := by
  induction ops generalizing pool with
  | nil => exact ⟨rfl, h⟩
  | cons op rest ih =>
    simp only [poolRun, List.foldl_cons]
    have h1 := poolStep_bound pool op h
    have h2 := ih (poolStep pool op) (h1.1 ▸ h1.2)
    exact ⟨h2.1.trans h1.1, h1.1 ▸ h2.2⟩

/-- C6: from a freshly created pool with effective configured size s, no
sequence of Start, warmOne, Take and Close operations ever makes the
number of instances resident in the channel exceed s; the channel is
allocated with capacity s and every insert is the non-blocking send of
warmOne, which discards the new instance when the channel is full. -/
theorem warmPool_bounded (runtime ns : String) (stateRoot : GoPath)
    (config : WarmPoolConfig) (ops : List PoolOp) :
    (poolRun (newWarmPool runtime ns stateRoot config) ops).shims.cap
        = (effectiveSize config.Size).toNat ∧
    (poolRun (newWarmPool runtime ns stateRoot config) ops).shims.buf.length
        ≤ (effectiveSize config.Size).toNat := by
  have hcap : (newWarmPool runtime ns stateRoot config).shims.cap
      = (effectiveSize config.Size).toNat := by
    unfold newWarmPool effectiveSize
    by_cases h : config.Size ≤ 0
    · simp only [h, if_true]
      split <;> rfl
    · simp only [h, if_false]
      split <;> rfl
  have hlen : (newWarmPool runtime ns stateRoot config).shims.buf.length
      ≤ (newWarmPool runtime ns stateRoot config).shims.cap := by
    unfold newWarmPool
    simp
  have h := poolRun_bound (newWarmPool runtime ns stateRoot config) ops hlen
  exact ⟨h.1.trans hcap, hcap ▸ h.2⟩

/-! ### Association-list lemmas for the ShimPool proofs -/

theorem alistLookup_eq_none_iff {κ β : Type} [DecidableEq κ] (l : List (κ × β)) (k : κ) :
    alistLookup l k = none ↔ ∀ e ∈ l, e.1 ≠ k := by
  unfold alistLookup
  rw [Option.map_eq_none', List.find?_eq_none]
  simp

theorem alistLookup_mem {κ β : Type} [DecidableEq κ] {l : List (κ × β)} {k : κ} {v : β}
    (h : alistLookup l k = some v) : (k, v) ∈ l := by
  unfold alistLookup at h
  rw [Option.map_eq_some'] at h
  obtain ⟨e, he, hv⟩ := h
  have hmem := List.mem_of_find?_eq_some he
  have hpred := List.find?_some he
  simp at hpred
  have : e = (k, v) := by
    cases e
    simp at hpred hv ⊢
    exact ⟨hpred, hv⟩
  exact this ▸ hmem

theorem alistLookup_of_mem_nodup {κ β : Type} [DecidableEq κ] {l : List (κ × β)}
    {e : κ × β} (hN : (l.map (·.1)).Nodup) (he : e ∈ l) :
    alistLookup l e.1 = some e.2 := by
  induction l with
  | nil => cases he
  | cons a rest ih =>
    rcases List.mem_cons.1 he with rfl | hr
    · unfold alistLookup
      rw [List.find?_cons_of_pos _ (by simp)]
      rfl
    · have hne : a.1 ≠ e.1 := by
        intro hk
        have : e.1 ∈ rest.map (·.1) := List.mem_map_of_mem _ hr
        rw [List.map_cons] at hN
        exact (List.nodup_cons.1 hN).1 (hk ▸ this)
      unfold alistLookup
      rw [List.find?_cons_of_neg _ (by simp; exact hne)]
      exact ih (List.nodup_cons.1 (List.map_cons _ _ _ ▸ hN)).2 hr

theorem alistLookup_append_left {κ β : Type} [DecidableEq κ] {l1 l2 : List (κ × β)}
    {k : κ} {v : β} (h : alistLookup l1 k = some v) :
    alistLookup (l1 ++ l2) k = some v := by
  unfold alistLookup at h ⊢
  rw [List.find?_append]
  rw [Option.map_eq_some'] at h
  obtain ⟨e, he, hv⟩ := h
  rw [he]
  simpa using hv

theorem alistLookup_append_right {κ β : Type} [DecidableEq κ] {l1 l2 : List (κ × β)}
    {k : κ} (h : alistLookup l1 k = none) :
    alistLookup (l1 ++ l2) k = alistLookup l2 k := by
  unfold alistLookup at h ⊢
  rw [List.find?_append]
  rw [Option.map_eq_none'] at h
  rw [h]
  rfl

theorem alistLookup_erase_self {κ β : Type} [DecidableEq κ] (l : List (κ × β)) (k : κ) :
    alistLookup (alistErase l k) k = none := by
  unfold alistLookup alistErase
  rw [Option.map_eq_none', List.find?_eq_none]
  intro e he
  have := List.of_mem_filter he
  simp at this
  simp [this]

theorem alistLookup_erase_ne {κ β : Type} [DecidableEq κ] (l : List (κ × β)) {k k' : κ}
    (h : k' ≠ k) : alistLookup (alistErase l k) k' = alistLookup l k' := by
  unfold alistLookup alistErase
  rw [find?_filter_imp]
  intro e he
  simp at he
  simp [he]
  exact fun hk => h (hk ▸ he ▸ rfl)

theorem mem_alistErase {κ β : Type} [DecidableEq κ] {l : List (κ × β)} {k : κ}
    {e : κ × β} : e ∈ alistErase l k ↔ e ∈ l ∧ e.1 ≠ k := by
  unfold alistErase
  rw [List.mem_filter]
  simp

theorem alistErase_of_none {κ β : Type} [DecidableEq κ] {l : List (κ × β)} {k : κ}
    (h : alistLookup l k = none) : alistErase l k = l := by
  unfold alistErase
  rw [List.filter_eq_self]
  intro e he
  have := (alistLookup_eq_none_iff l k).1 h e he
  simpa using this

theorem alistErase_keys_sublist {κ β : Type} [DecidableEq κ] (l : List (κ × β)) (k : κ) :
    ((alistErase l k).map (·.1)).Sublist (l.map (·.1)) :=
  (List.filter_sublist l).map _

theorem alistInsert_of_none {κ β : Type} [DecidableEq κ] {l : List (κ × β)} {k : κ}
    (v : β) (h : alistLookup l k = none) : alistInsert l k v = l ++ [(k, v)] := by
  unfold alistInsert
  unfold alistLookup at h
  rw [Option.map_eq_none'] at h
  rw [h]
  rfl

theorem alistInsert_of_some {κ β : Type} [DecidableEq κ] {l : List (κ × β)} {k : κ}
    {w : β} (v : β) (h : alistLookup l k = some w) :
    alistInsert l k v = l.map (fun e => if e.1 = k then (k, v) else e) := by
  unfold alistInsert
  unfold alistLookup at h
  rw [Option.map_eq_some'] at h
  obtain ⟨e, he, _⟩ := h
  rw [he]
  rfl

theorem alistInsert_self_eq {κ β : Type} [DecidableEq κ] {l : List (κ × β)} {k : κ}
    {v : β} (hN : (l.map (·.1)).Nodup) (h : alistLookup l k = some v) :
    alistInsert l k v = l := by
  rw [alistInsert_of_some v h]
  have hcong : ∀ e ∈ l, (if e.1 = k then (k, v) else e) = e := by
    intro e he
    by_cases hek : e.1 = k
    · have hlk : alistLookup l k = some e.2 := by
        rw [← hek]
        exact alistLookup_of_mem_nodup hN he
      rw [h] at hlk
      have hv : v = e.2 := by injection hlk
      rw [if_pos hek, hv, ← hek]
    · rw [if_neg hek]
  calc l.map (fun e => if e.1 = k then (k, v) else e)
      = l.map id := List.map_congr_left hcong
    _ = l := List.map_id l

theorem alistLookup_insert_self {κ β : Type} [DecidableEq κ] (l : List (κ × β)) (k : κ)
    (v : β) : alistLookup (alistInsert l k v) k = some v := by
  rcases hl : alistLookup l k with _ | w
  · rw [alistInsert_of_none v hl]
    rw [alistLookup_append_right hl]
    unfold alistLookup
    rw [List.find?_cons_of_pos _ (by simp)]
    rfl
  · rw [alistInsert_of_some v hl]
    unfold alistLookup at hl ⊢
    rw [Option.map_eq_some'] at hl
    obtain ⟨e, he, _⟩ := hl
    induction l with
    | nil => cases he
    | cons a rest ih =>
      rw [List.map_cons]
      by_cases ha : a.1 = k
      · rw [if_pos ha]
        rw [List.find?_cons_of_pos _ (by simp)]
        rfl
      · rw [if_neg ha]
        rw [List.find?_cons_of_neg _ (by simp; exact ha)]
        rw [List.find?_cons_of_neg _ (by simp; exact ha)] at he
        exact ih he

theorem alistLookup_insert_ne {κ β : Type} [DecidableEq κ] (l : List (κ × β)) {k k' : κ}
    (v : β) (h : k' ≠ k) : alistLookup (alistInsert l k v) k' = alistLookup l k' := by
  rcases hl : alistLookup l k with _ | w
  · rw [alistInsert_of_none v hl]
    rcases hl' : alistLookup l k' with _ | w'
    · rw [alistLookup_append_right hl']
      unfold alistLookup
      rw [List.find?_cons_of_neg _ (by simp; exact fun hk => h hk.symm)]
      rfl
    · exact alistLookup_append_left hl'
  · rw [alistInsert_of_some v hl]
    unfold alistLookup
    clear hl
    induction l with
    | nil => rfl
    | cons a rest ih =>
      rw [List.map_cons]
      by_cases ha : a.1 = k
      · rw [if_pos ha]
        rw [List.find?_cons_of_neg _ (by simp; exact fun hk => h hk.symm)]
        rw [List.find?_cons_of_neg _ (by simp [ha]; exact fun hk => h hk.symm)]
        exact ih
      · rw [if_neg ha]
        by_cases ha' : a.1 = k'
        · rw [List.find?_cons_of_pos _ (by simp [ha']), List.find?_cons_of_pos _ (by simp [ha'])]
        · rw [List.find?_cons_of_neg _ (by simp [ha']), List.find?_cons_of_neg _ (by simp [ha'])]
          exact ih

theorem alistInsert_keys_of_some {κ β : Type} [DecidableEq κ] {l : List (κ × β)} {k : κ}
    {w : β} (v : β) (h : alistLookup l k = some w) :
    (alistInsert l k v).map (·.1) = l.map (·.1) := by
  rw [alistInsert_of_some v h]
  rw [List.map_map]
  apply List.map_congr_left
  intro e _
  by_cases he : e.1 = k
  · simp [he]
  · simp [he]

theorem alistInsert_keys_of_none {κ β : Type} [DecidableEq κ] {l : List (κ × β)} {k : κ}
    (v : β) (h : alistLookup l k = none) :
    (alistInsert l k v).map (·.1) = l.map (·.1) ++ [k] := by
  rw [alistInsert_of_none v h]
  simp

theorem mem_alistInsert_of_some {κ β : Type} [DecidableEq κ] {l : List (κ × β)} {k : κ}
    {w : β} {v : β} {e : κ × β} (h : alistLookup l k = some w) :
    e ∈ alistInsert l k v ↔ e = (k, v) ∧ (∃ y, (k, y) ∈ l) ∨ (e ∈ l ∧ e.1 ≠ k) := by
  rw [alistInsert_of_some v h]
  rw [List.mem_map]
  constructor
  · rintro ⟨a, ha, rfl⟩
    by_cases hak : a.1 = k
    · left
      refine ⟨by simp [hak], a.2, ?_⟩
      have : a = (k, a.2) := by
        cases a
        simp at hak ⊢
        exact hak
      exact this ▸ ha
    · right
      simp [hak]
      exact ha
  · rintro (⟨rfl, y, hy⟩ | ⟨he, hek⟩)
    · exact ⟨(k, y), hy, by simp⟩
    · exact ⟨e, he, by simp [hek]⟩

/-! ### ShimPool invariant preservation -/

theorem heapUpdate_keys (h : List (Nat × PoolItem)) (r : Nat) (f : PoolItem → PoolItem) :
    (heapUpdate h r f).map (·.1) = h.map (·.1) := by
  unfold heapUpdate
  rw [List.map_map]
  apply List.map_congr_left
  intro e _
  by_cases he : e.1 = r <;> simp [he]

theorem heapUpdate_lookup_self (h : List (Nat × PoolItem)) (r : Nat)
    (f : PoolItem → PoolItem) :
    alistLookup (heapUpdate h r f) r = (alistLookup h r).map f := by
  unfold heapUpdate alistLookup
  induction h with
  | nil => rfl
  | cons e rest ih =>
    by_cases he : e.1 = r
    · rw [List.map_cons, if_pos he]
      rw [List.find?_cons_of_pos _ (by simp [he]), List.find?_cons_of_pos _ (by simp [he])]
      rfl
    · rw [List.map_cons, if_neg he]
      rw [List.find?_cons_of_neg _ (by simp; exact he),
        List.find?_cons_of_neg _ (by simp; exact he)]
      exact ih

theorem heapUpdate_lookup_ne (h : List (Nat × PoolItem)) {r r' : Nat}
    (f : PoolItem → PoolItem) (hne : r' ≠ r) :
    alistLookup (heapUpdate h r f) r' = alistLookup h r' := by
  unfold heapUpdate alistLookup
  induction h with
  | nil => rfl
  | cons e rest ih =>
    by_cases he : e.1 = r
    · rw [List.map_cons, if_pos he]
      rw [List.find?_cons_of_neg _ (by simp; exact fun hk => hne (hk ▸ he ▸ rfl))]
      rw [List.find?_cons_of_neg _ (by simp; exact fun hk => hne (hk ▸ he ▸ rfl))]
      exact ih
    · rw [List.map_cons, if_neg he]
      by_cases he' : e.1 = r'
      · rw [List.find?_cons_of_pos _ (by simp [he']), List.find?_cons_of_pos _ (by simp [he'])]
      · rw [List.find?_cons_of_neg _ (by simp [he']), List.find?_cons_of_neg _ (by simp [he'])]
        exact ih

theorem inv_heapUpdate (p : ShimPool) (r : Nat) (f : PoolItem → PoolItem)
    (hf : ∀ it, (f it).Address = it.Address ∧ (f it).Namespace = it.Namespace ∧
      (f it).Runtime = it.Runtime)
    (h : p.Inv) : ShimPool.Inv { p with heap := heapUpdate p.heap r f } := by
  obtain ⟨h1, h2, h3, h4, h5, h6, h7, h8⟩ := h
  refine ⟨?_, ?_, h3, h4, h5, h6, ?_, ?_⟩
  · rw [heapUpdate_keys]
    exact h1
  · intro e he
    have hk : e.1 ∈ (heapUpdate p.heap r f).map (·.1) := List.mem_map_of_mem _ he
    rw [heapUpdate_keys] at hk
    obtain ⟨e0, he0, hke⟩ := List.mem_map.1 hk
    exact hke ▸ h2 e0 he0
  · intro e he r' hr'
    have old := h7 e he r' hr'
    unfold ShimPool.refOK ShimPool.heapGet at old ⊢
    by_cases hrr : r' = r
    · subst hrr
      rw [heapUpdate_lookup_self]
      rcases hg : alistLookup p.heap r' with _ | it
      · rw [hg] at old
        exact old
      · rw [hg] at old
        simp only [Option.map_some']
        exact ⟨old.1.trans (by rw [(hf it).2.1, (hf it).2.2]), (hf it).1.symm ▸ old.2⟩
    · rw [heapUpdate_lookup_ne _ f hrr]
      exact old
  · intro e he
    have old := h8 e he
    unfold ShimPool.indexOK ShimPool.heapGet at old ⊢
    by_cases hrr : e.2 = r
    · rw [hrr] at old ⊢
      rw [heapUpdate_lookup_self]
      rcases hg : alistLookup p.heap r with _ | it
      · rw [hg] at old
        exact old
      · rw [hg] at old
        simp only [Option.map_some']
        exact ⟨(hf it).1.trans old.1, old.2⟩
    · rw [heapUpdate_lookup_ne _ f hrr]
      exact old

theorem shimPool_getIdle_inv (p : ShimPool) (ns runtime : String) (now : Int)
    (h : p.Inv) : ((p.getIdle ns runtime now).2).Inv := by
  unfold ShimPool.getIdle
  rcases hf : findIdleRef p.heap (p.itemsGet (ShimPool.key ns runtime)) with _ | r
  · simp only [hf]
    exact h
  · simp only [hf]
    exact inv_heapUpdate p r _ (by intro it; exact ⟨rfl, rfl, rfl⟩) h

theorem shimPool_ret_inv (p : ShimPool) (address : String) (now : Int)
    (h : p.Inv) : (p.ret address now).Inv := by
  unfold ShimPool.ret
  rcases hf : alistLookup p.index address with _ | r
  · simp only [hf]
    exact h
  · simp only [hf]
    exact inv_heapUpdate p r _ (by intro it; exact ⟨rfl, rfl, rfl⟩) h

theorem alistLookup_single_self {κ β : Type} [DecidableEq κ] (k : κ) (v : β) :
    alistLookup [(k, v)] k = some v := by
  unfold alistLookup
  rw [List.find?_cons_of_pos _ (by simp)]
  rfl

theorem shimPool_register_inv (p : ShimPool) (ns runtime address : String) (pid now : Int)
    (hfresh : alistLookup p.index address = none) (h : p.Inv) :
    ((p.register ns runtime address pid now).1).Inv := by
  obtain ⟨h1, h2, h3, h4, h5, h6, h7, h8⟩ := h
  have hrefs_lt : ∀ e ∈ p.items, ∀ r' ∈ e.2, r' < p.nextRef := by
    intro e he r' hr'
    have hro := h7 e he r' hr'
    unfold ShimPool.refOK ShimPool.heapGet at hro
    rcases hg : alistLookup p.heap r' with _ | it
    · rw [hg] at hro
      exact hro.elim
    · exact h2 _ (alistLookup_mem hg)
  have hheapr : alistLookup p.heap p.nextRef = none := by
    rw [alistLookup_eq_none_iff]
    intro e he
    exact Nat.ne_of_lt (h2 e he)
  have hkeysr : p.nextRef ∉ p.heap.map (·.1) := by
    intro hmem
    obtain ⟨e, he, hke⟩ := List.mem_map.1 hmem
    exact absurd hke (Nat.ne_of_lt (h2 e he))
  have haddr_keys : address ∉ p.index.map (·.1) := by
    intro hmem
    obtain ⟨e, he, hke⟩ := List.mem_map.1 hmem
    exact (alistLookup_eq_none_iff _ _ |>.1 hfresh e he) hke
  unfold ShimPool.register
  simp only
  set r := p.nextRef with hrdef
  set k := ShimPool.key ns runtime with hkdef
  set item : PoolItem :=
    { Address := address, PID := pid, Namespace := ns, Runtime := runtime
      Idle := true, LastActive := now } with hitemdef
  set heap' := p.heap ++ [(r, item)] with hheapdef
  set items' := alistInsert p.items k (p.itemsGet k ++ [r]) with hitemsdef
  set index' := alistInsert p.index address r with hindexdef
  have hindex' : index' = p.index ++ [(address, r)] := alistInsert_of_none _ hfresh
  have hheapGet_new : alistLookup heap' r = some item := by
    rw [hheapdef, alistLookup_append_right hheapr, alistLookup_single_self]
  have hr_notin : ∀ r' ∈ p.itemsGet k, r' < r := by
    intro r' hr'
    unfold ShimPool.itemsGet at hr'
    rcases hit : alistLookup p.items k with _ | lst
    · rw [hit] at hr'
      cases hr'
    · rw [hit] at hr'
      exact hrefs_lt _ (alistLookup_mem hit) r' hr'
  have hmem_items' : ∀ e, e ∈ items' ↔
      (e = (k, p.itemsGet k ++ [r]) ∨ (e ∈ p.items ∧ e.1 ≠ k)) := by
    intro e
    rcases hit : alistLookup p.items k with _ | lst
    · have hget : p.itemsGet k = [] := by
        unfold ShimPool.itemsGet
        rw [hit]
        rfl
      rw [hitemsdef, alistInsert_of_none _ hit, List.mem_append]
      constructor
      · rintro (he | he)
        · right
          exact ⟨he, (alistLookup_eq_none_iff _ _ |>.1 hit) e he⟩
        · left
          simpa [hget] using he
      · rintro (he | ⟨he, _⟩)
        · right
          simpa [hget] using List.mem_singleton.2 he
        · left
          exact he
    · rw [hitemsdef, mem_alistInsert_of_some hit]
      constructor
      · rintro (⟨he, _⟩ | he)
        · left
          exact he
        · right
          exact he
      · rintro (he | he)
        · left
          exact ⟨he, ⟨lst, alistLookup_mem hit⟩⟩
        · right
          exact he
  refine ⟨?_, ?_, ?_, ?_, ?_, ?_, ?_, ?_⟩
  · show (heap'.map (·.1)).Nodup
    rw [hheapdef, List.map_append]
    rw [List.nodup_append]
    exact ⟨h1, List.nodup_singleton _, by simpa using hkeysr⟩
  · show ∀ e ∈ heap', e.1 < r + 1
    intro e he
    rw [hheapdef, List.mem_append] at he
    rcases he with he | he
    · exact Nat.lt_succ_of_lt (h2 e he)
    · rw [List.mem_singleton] at he
      rw [he]
      exact Nat.lt_succ_self r
  · show (items'.map (·.1)).Nodup
    rcases hit : alistLookup p.items k with _ | lst
    · rw [hitemsdef, alistInsert_keys_of_none _ hit]
      rw [List.nodup_append]
      refine ⟨h3, List.nodup_singleton _, ?_⟩
      simp only [List.disjoint_singleton]
      intro hmem
      obtain ⟨e, he, hke⟩ := List.mem_map.1 hmem
      exact (alistLookup_eq_none_iff _ _ |>.1 hit e he) hke
    · rw [hitemsdef, alistInsert_keys_of_some _ hit]
      exact h3
  · show (index'.map (·.1)).Nodup
    rw [hindex', List.map_append]
    rw [List.nodup_append]
    exact ⟨h4, List.nodup_singleton _, by simpa using haddr_keys⟩
  · show ∀ e ∈ items', e.2 ≠ []
    intro e he
    rcases (hmem_items' e).1 he with he' | ⟨he', _⟩
    · rw [he']
      simp
    · exact h5 e he'
  · show ∀ e ∈ items', e.2.Nodup
    intro e he
    rcases (hmem_items' e).1 he with he' | ⟨he', _⟩
    · rw [he']
      simp only
      rw [List.nodup_append]
      refine ⟨?_, List.nodup_singleton _, ?_⟩
      · rcases hit : alistLookup p.items k with _ | lst
        · unfold ShimPool.itemsGet
          rw [hit]
          exact List.nodup_nil
        · unfold ShimPool.itemsGet
          rw [hit]
          exact h6 _ (alistLookup_mem hit)
      · simp only [List.disjoint_singleton]
        intro hmem
        exact absurd rfl (Nat.ne_of_lt (hr_notin r hmem))
    · exact h6 e he'
  · show ∀ e ∈ items', ∀ r' ∈ e.2,
      ShimPool.refOK
        { heap := heap', nextRef := r + 1, items := items', index := index'
          IdleTTL := p.IdleTTL, HealthTimeout := p.HealthTimeout } e.1 r'
    intro e he r' hr'
    have hold_lift : ∀ k' r'', p.refOK k' r'' →
        ShimPool.refOK
          { heap := heap', nextRef := r + 1, items := items', index := index'
            IdleTTL := p.IdleTTL, HealthTimeout := p.HealthTimeout } k' r'' := by
      intro k' r'' hro
      unfold ShimPool.refOK ShimPool.heapGet at hro ⊢
      rcases hg : alistLookup p.heap r'' with _ | it
      · rw [hg] at hro
        exact hro.elim
      · rw [hg] at hro
        simp only
        rw [hheapdef, alistLookup_append_left hg]
        refine ⟨hro.1, ?_⟩
        rw [hindex', alistLookup_append_left hro.2]
    rcases (hmem_items' e).1 he with he' | ⟨he', _⟩
    · rw [he'] at hr' ⊢
      simp only at hr' ⊢
      rw [List.mem_append] at hr'
      rcases hr' with hr' | hr'
      · -- an old pointer of the k list
        rcases hit : alistLookup p.items k with _ | lst
        · unfold ShimPool.itemsGet at hr'
          rw [hit] at hr'
          cases hr'
        · have hkl : p.itemsGet k = lst := by
            unfold ShimPool.itemsGet
            rw [hit]
            rfl
          exact hold_lift k r' (h7 (k, lst) (alistLookup_mem hit) r' (hkl ▸ hr'))
      · -- the new pointer
        rw [List.mem_singleton] at hr'
        subst hr'
        unfold ShimPool.refOK ShimPool.heapGet
        simp only
        rw [hheapGet_new]
        refine ⟨rfl, ?_⟩
        rw [hindex']
        show alistLookup (p.index ++ [(address, r)]) address = some r
        rw [alistLookup_append_right hfresh, alistLookup_single_self]
    · exact hold_lift e.1 r' (h7 e he' r' hr')
  · show ∀ e ∈ index',
      ShimPool.indexOK
        { heap := heap', nextRef := r + 1, items := items', index := index'
          IdleTTL := p.IdleTTL, HealthTimeout := p.HealthTimeout } e.1 e.2
    intro e he
    have hlisted' : ∀ r'', ShimPool.listed p r'' →
        ShimPool.listed
          { heap := heap', nextRef := r + 1, items := items', index := index'
            IdleTTL := p.IdleTTL, HealthTimeout := p.HealthTimeout } r'' := by
      intro r'' ⟨e0, he0, hre0⟩
      by_cases hek : e0.1 = k
      · have he0k : alistLookup p.items k = some e0.2 := by
          rw [← hek]
          exact alistLookup_of_mem_nodup h3 he0
        have hkl : p.itemsGet k = e0.2 := by
          unfold ShimPool.itemsGet
          rw [he0k]
          rfl
        refine ⟨(k, p.itemsGet k ++ [r]), (hmem_items' _).2 (Or.inl rfl), ?_⟩
        simp only
        rw [List.mem_append]
        exact Or.inl (hkl ▸ hre0)
      · exact ⟨e0, (hmem_items' _).2 (Or.inr ⟨he0, hek⟩), hre0⟩
    rw [hindex', List.mem_append] at he
    rcases he with he | he
    · have hio := h8 e he
      unfold ShimPool.indexOK ShimPool.heapGet at hio ⊢
      rcases hg : alistLookup p.heap e.2 with _ | it
      · rw [hg] at hio
        exact hio.elim
      · rw [hg] at hio
        simp only
        rw [hheapdef, alistLookup_append_left hg]
        exact ⟨hio.1, hlisted' e.2 hio.2⟩
    · rw [List.mem_singleton] at he
      subst he
      unfold ShimPool.indexOK ShimPool.heapGet
      simp only
      rw [hheapGet_new]
      refine ⟨rfl, ?_⟩
      refine ⟨(k, p.itemsGet k ++ [r]), (hmem_items' _).2 (Or.inl rfl), ?_⟩
      simp only
      rw [List.mem_append]
      right
      exact List.mem_singleton.2 rfl

theorem shimPool_remove_inv (p : ShimPool) (ns : String) (item : PoolItem)
    (hpre : p.removePre ns item) (h : p.Inv) : (p.remove ns item).Inv := by
  obtain ⟨h1, h2, h3, h4, h5, h6, h7, h8⟩ := h
  unfold ShimPool.removePre at hpre
  unfold ShimPool.remove
  simp only
  set k := ShimPool.key ns item.Runtime with hkdef
  set lst := p.itemsGet k with hlstdef
  set pred : Nat → Bool := fun r =>
    match alistLookup p.heap r with
    | some it => decide (it.Address ≠ item.Address)
    | none => true
    with hpreddef
  set out := lst.filter pred with houtdef
  rcases hidx : alistLookup p.index item.Address with _ | r0
  · -- the address is not indexed: the erase and the filter are no-ops
    have hidx1 : alistErase p.index item.Address = p.index := alistErase_of_none hidx
    have hout_all : ∀ r' ∈ lst, pred r' = true := by
      intro r' hr'
      rw [hlstdef] at hr'
      unfold ShimPool.itemsGet at hr'
      rcases hit : alistLookup p.items k with _ | l0
      · rw [hit] at hr'
        cases hr'
      · rw [hit] at hr'
        have hr2 : r' ∈ l0 := hr'
        have hro := h7 (k, l0) (alistLookup_mem hit) r' hr2
        unfold ShimPool.refOK ShimPool.heapGet at hro
        rcases hg : alistLookup p.heap r' with _ | it'
        · rw [hg] at hro
          exact hro.elim
        · rw [hg] at hro
          rw [hpreddef]
          simp only [hg]
          simp only [decide_eq_true_eq]
          intro haddr
          have hro2 := hro.2
          rw [haddr] at hro2
          rw [hro2] at hidx
          cases hidx
    have hout_lst : out = lst := by
      rw [houtdef]
      exact List.filter_eq_self.2 hout_all
    by_cases houtnil : out = []
    · have hlstnil : lst = [] := hout_lst ▸ houtnil
      have hitnone : alistLookup p.items k = none := by
        rcases hit : alistLookup p.items k with _ | l0
        · rfl
        · have : l0 ≠ [] := h5 (k, l0) (alistLookup_mem hit)
          have hl0 : p.itemsGet k = l0 := by
            unfold ShimPool.itemsGet
            rw [hit]
            rfl
          rw [hlstdef] at hlstnil
          exact absurd (hl0 ▸ hlstnil) this
      rw [if_pos houtnil, hidx1, alistErase_of_none hitnone]
      exact ⟨h1, h2, h3, h4, h5, h6, h7, h8⟩
    · have hitsome : alistLookup p.items k = some lst := by
        rcases hit : alistLookup p.items k with _ | l0
        · have : lst = [] := by
            rw [hlstdef]
            unfold ShimPool.itemsGet
            rw [hit]
            rfl
          exact absurd (hout_lst.trans this) houtnil
        · rw [hlstdef]
          unfold ShimPool.itemsGet
          rw [hit]
          rfl
      rw [if_neg houtnil, hidx1, hout_lst, alistInsert_self_eq h3 hitsome]
      exact ⟨h1, h2, h3, h4, h5, h6, h7, h8⟩
  · -- the address resolves to pointer r0 sitting in the k list
    rw [hidx] at hpre
    have hpre2 : (match alistLookup p.heap r0 with
        | none => False
        | some it => k = ShimPool.key it.Namespace it.Runtime) := hpre
    have hio0 := h8 (item.Address, r0) (alistLookup_mem hidx)
    have hio1 : (match alistLookup p.heap r0 with
        | none => False
        | some it => it.Address = item.Address ∧ p.listed r0) := hio0
    rcases hg0 : alistLookup p.heap r0 with _ | it0
    · rw [hg0] at hpre2
      exact hpre2.elim
    rw [hg0] at hpre2 hio1
    have hpre3 : k = ShimPool.key it0.Namespace it0.Runtime := hpre2
    have hio : it0.Address = item.Address ∧ p.listed r0 := hio1
    obtain ⟨e0, he0, hre0⟩ := hio.2
    have hro0 := h7 e0 he0 r0 hre0
    unfold ShimPool.refOK ShimPool.heapGet at hro0
    rw [hg0] at hro0
    have he0k : e0.1 = k := by
      rw [hro0.1, hpre3]
    have hitsome : alistLookup p.items k = some e0.2 := by
      rw [← he0k]
      exact alistLookup_of_mem_nodup h3 he0
    have hlst_eq : lst = e0.2 := by
      rw [hlstdef]
      unfold ShimPool.itemsGet
      rw [hitsome]
      rfl
    have hr0lst : r0 ∈ lst := hlst_eq ▸ hre0
    -- characterize the heap address of each listed pointer of the k list
    have haddr_iff : ∀ r' ∈ lst, ∀ it', alistLookup p.heap r' = some it' →
        (it'.Address = item.Address ↔ r' = r0) := by
      intro r' hr' it' hg'
      have hro' := h7 e0 he0 r' (hlst_eq ▸ hr')
      unfold ShimPool.refOK ShimPool.heapGet at hro'
      rw [hg'] at hro'
      constructor
      · intro ha
        have := hro'.2
        rw [ha, hidx] at this
        injection this with hh
        exact hh.symm
      · intro hrr
        rw [hrr] at hg'
        rw [hg0] at hg'
        injection hg' with hh
        rw [← hh]
        exact hio.1
    have hmem_out : ∀ r', r' ∈ out ↔ (r' ∈ lst ∧ r' ≠ r0) := by
      intro r'
      rw [houtdef, List.mem_filter]
      constructor
      · rintro ⟨hl, hp⟩
        refine ⟨hl, ?_⟩
        have hro' := h7 e0 he0 r' (hlst_eq ▸ hl)
        unfold ShimPool.refOK ShimPool.heapGet at hro'
        rcases hg' : alistLookup p.heap r' with _ | it'
        · rw [hg'] at hro'
          exact hro'.elim
        · rw [hpreddef] at hp
          simp only [hg', decide_eq_true_eq] at hp
          intro hrr
          exact hp ((haddr_iff r' hl it' hg').2 hrr)
      · rintro ⟨hl, hne⟩
        refine ⟨hl, ?_⟩
        have hro' := h7 e0 he0 r' (hlst_eq ▸ hl)
        unfold ShimPool.refOK ShimPool.heapGet at hro'
        rcases hg' : alistLookup p.heap r' with _ | it'
        · rw [hg'] at hro'
          exact hro'.elim
        · rw [hpreddef]
          simp only [hg', decide_eq_true_eq]
          intro ha
          exact hne ((haddr_iff r' hl it' hg').1 ha)
    have hcross : ∀ e ∈ p.items, e.1 ≠ k → ∀ r' ∈ e.2, r' ≠ r0 := by
      intro e he hek r' hr' hrr
      subst hrr
      have hro' := h7 e he r' hr'
      unfold ShimPool.refOK ShimPool.heapGet at hro'
      rw [hg0] at hro'
      exact hek (hro'.1.trans hpre3.symm)
    -- the updated refOK does not depend on the items component
    have hrefOK_any : ∀ (X : List (String × List Nat)) (e : String × List Nat),
        e ∈ p.items → e.1 ≠ k → ∀ r' ∈ e.2,
        ShimPool.refOK
          { heap := p.heap, nextRef := p.nextRef, items := X
            index := alistErase p.index item.Address
            IdleTTL := p.IdleTTL, HealthTimeout := p.HealthTimeout } e.1 r' := by
      intro X e he hek r' hr'
      have hro' := h7 e he r' hr'
      unfold ShimPool.refOK ShimPool.heapGet at hro' ⊢
      rcases hg' : alistLookup p.heap r' with _ | it'
      · rw [hg'] at hro'
        exact hro'.elim
      · rw [hg'] at hro'
        simp only
        refine ⟨hro'.1, ?_⟩
        have hane : it'.Address ≠ item.Address := by
          intro ha
          have := hro'.2
          rw [ha, hidx] at this
          injection this with hh
          exact hcross e he hek r' hr' hh.symm
        rw [alistLookup_erase_ne _ hane]
        exact hro'.2
    have hrefOK_out : ∀ (X : List (String × List Nat)) (r' : Nat), r' ∈ out →
        ShimPool.refOK
          { heap := p.heap, nextRef := p.nextRef, items := X
            index := alistErase p.index item.Address
            IdleTTL := p.IdleTTL, HealthTimeout := p.HealthTimeout } k r' := by
      intro X r' hr'
      obtain ⟨hl, hne⟩ := (hmem_out r').1 hr'
      have hro' := h7 e0 he0 r' (hlst_eq ▸ hl)
      unfold ShimPool.refOK ShimPool.heapGet at hro' ⊢
      rcases hg' : alistLookup p.heap r' with _ | it'
      · rw [hg'] at hro'
        exact hro'.elim
      · rw [hg'] at hro'
        simp only
        refine ⟨he0k ▸ hro'.1, ?_⟩
        have hane : it'.Address ≠ item.Address := by
          intro ha
          exact hne ((haddr_iff r' hl it' hg').1 ha)
        rw [alistLookup_erase_ne _ hane]
        exact hro'.2
    by_cases houtnil : out = []
    · rw [if_pos houtnil]
      refine ⟨h1, h2, ?_, ?_, ?_, ?_, ?_, ?_⟩
      · exact h3.sublist (alistErase_keys_sublist _ _)
      · exact h4.sublist (alistErase_keys_sublist _ _)
      · intro e he
        exact h5 e (mem_alistErase.1 he).1
      · intro e he
        exact h6 e (mem_alistErase.1 he).1
      · intro e he r' hr'
        obtain ⟨hein, hek⟩ := mem_alistErase.1 he
        exact hrefOK_any _ e hein hek r' hr'
      · intro e he
        obtain ⟨hein, hea⟩ := mem_alistErase.1 he
        have hio' := h8 e hein
        unfold ShimPool.indexOK ShimPool.heapGet at hio' ⊢
        rcases hg' : alistLookup p.heap e.2 with _ | it'
        · rw [hg'] at hio'
          exact hio'.elim
        · rw [hg'] at hio'
          simp only
          refine ⟨hio'.1, ?_⟩
          obtain ⟨e1, he1, hre1⟩ := hio'.2
          have hr0ne : e.2 ≠ r0 := by
            intro hrr
            rw [hrr, hg0] at hg'
            injection hg' with hh
            apply hea
            rw [← hio'.1, ← hh]
            exact hio.1
          by_cases he1k : e1.1 = k
          · have he12 : e1.2 = lst := by
              have : alistLookup p.items k = some e1.2 := by
                rw [← he1k]
                exact alistLookup_of_mem_nodup h3 he1
              rw [hitsome] at this
              injection this with hh
              rw [← hh, hlst_eq]
            have : e.2 ∈ out := (hmem_out e.2).2 ⟨he12 ▸ hre1, hr0ne⟩
            rw [houtnil] at this
            cases this
          · exact ⟨e1, mem_alistErase.2 ⟨he1, he1k⟩, hre1⟩
    · rw [if_neg houtnil]
      have hkeys' := alistInsert_keys_of_some (l := p.items) out hitsome
      refine ⟨h1, h2, ?_, ?_, ?_, ?_, ?_, ?_⟩
      · rw [hkeys']
        exact h3
      · exact h4.sublist (alistErase_keys_sublist _ _)
      · intro e he
        rcases (mem_alistInsert_of_some hitsome).1 he with ⟨he', _⟩ | ⟨he', _⟩
        · rw [he']
          exact houtnil
        · exact h5 e he'
      · intro e he
        rcases (mem_alistInsert_of_some hitsome).1 he with ⟨he', _⟩ | ⟨he', _⟩
        · rw [he']
          have hnd : lst.Nodup := hlst_eq ▸ h6 e0 he0
          exact hnd.filter _
        · exact h6 e he'
      · intro e he r' hr'
        rcases (mem_alistInsert_of_some hitsome).1 he with ⟨he', _⟩ | ⟨he', hek⟩
        · rw [he'] at hr' ⊢
          exact hrefOK_out _ r' hr'
        · exact hrefOK_any _ e he' hek r' hr'
      · intro e he
        obtain ⟨hein, hea⟩ := mem_alistErase.1 he
        have hio' := h8 e hein
        unfold ShimPool.indexOK ShimPool.heapGet at hio' ⊢
        rcases hg' : alistLookup p.heap e.2 with _ | it'
        · rw [hg'] at hio'
          exact hio'.elim
        · rw [hg'] at hio'
          simp only
          refine ⟨hio'.1, ?_⟩
          obtain ⟨e1, he1, hre1⟩ := hio'.2
          have hr0ne : e.2 ≠ r0 := by
            intro hrr
            rw [hrr, hg0] at hg'
            injection hg' with hh
            apply hea
            rw [← hio'.1, ← hh]
            exact hio.1
          by_cases he1k : e1.1 = k
          · have he12 : e1.2 = lst := by
              have : alistLookup p.items k = some e1.2 := by
                rw [← he1k]
                exact alistLookup_of_mem_nodup h3 he1
              rw [hitsome] at this
              injection this with hh
              rw [← hh, hlst_eq]
            refine ⟨(k, out), (mem_alistInsert_of_some hitsome).2
              (Or.inl ⟨rfl, ⟨e0.2, he0k ▸ he0⟩⟩), ?_⟩
            exact (hmem_out e.2).2 ⟨he12 ▸ hre1, hr0ne⟩
          · exact ⟨e1, (mem_alistInsert_of_some hitsome).2 (Or.inr ⟨he1, he1k⟩), hre1⟩

theorem alistLookup_filter_key {κ β : Type} [DecidableEq κ] (l : List (κ × β))
    (q : κ → Bool) (k : κ) (hq : q k = true) :
    alistLookup (l.filter (fun e => q e.1)) k = alistLookup l k := by
  unfold alistLookup
  rw [find?_filter_imp]
  intro a ha
  simp at ha
  rw [ha]
  exact hq

theorem mem_allRefs_iff (p : ShimPool) (r : Nat) : r ∈ p.allRefs ↔ p.listed r := by
  unfold ShimPool.allRefs ShimPool.listed
  rw [List.mem_flatten]
  constructor
  · rintro ⟨l, hl, hrl⟩
    obtain ⟨e, he, hel⟩ := List.mem_map.1 hl
    exact ⟨e, he, hel ▸ hrl⟩
  · rintro ⟨e, he, hre⟩
    exact ⟨e.2, List.mem_map_of_mem _ he, hre⟩

theorem shimPool_prune_inv (p : ShimPool) (now : Int) (h : p.Inv) : (p.prune now).Inv := by
  obtain ⟨h1, h2, h3, h4, h5, h6, h7, h8⟩ := h
  unfold ShimPool.prune
  simp only
  set keep : Nat → Bool := fun r => !p.expired now r with hkeepdef
  set prunedAddrs := ((p.items.map (·.2)).flatten.filter (p.expired now)).filterMap
      (fun r => (alistLookup p.heap r).map (·.Address)) with hpadef
  set items' := (p.items.map (fun e => (e.1, e.2.filter keep))).filter
      (fun e => !e.2.isEmpty) with hitemsdef
  set index' := p.index.filter (fun e => !prunedAddrs.contains e.1) with hindexdef
  have hlookup_listed : ∀ r, p.listed r → ∃ it, alistLookup p.heap r = some it ∧
      alistLookup p.index it.Address = some r := by
    rintro r ⟨e, he, hre⟩
    have hro := h7 e he r hre
    unfold ShimPool.refOK ShimPool.heapGet at hro
    rcases hg : alistLookup p.heap r with _ | it
    · rw [hg] at hro
      exact hro.elim
    · rw [hg] at hro
      exact ⟨it, rfl, hro.2⟩
  have hmem_pa : ∀ a, a ∈ prunedAddrs ↔
      ∃ r, r ∈ p.allRefs ∧ p.expired now r = true ∧
        ∃ it, alistLookup p.heap r = some it ∧ it.Address = a := by
    intro a
    rw [hpadef, List.mem_filterMap]
    constructor
    · rintro ⟨r, hr, hmap⟩
      rw [List.mem_filter] at hr
      rw [Option.map_eq_some'] at hmap
      obtain ⟨it, hg, ha⟩ := hmap
      exact ⟨r, hr.1, hr.2, it, hg, ha⟩
    · rintro ⟨r, hr, hexp, it, hg, ha⟩
      refine ⟨r, List.mem_filter.2 ⟨hr, hexp⟩, ?_⟩
      rw [hg]
      simpa using ha
  have hnotpa : ∀ r' it', alistLookup p.heap r' = some it' →
      alistLookup p.index it'.Address = some r' → p.expired now r' = false →
      it'.Address ∉ prunedAddrs := by
    intro r' it' hg hix hexp hmem
    obtain ⟨r2, hr2all, hexp2, it2, hg2, ha2⟩ := (hmem_pa _).1 hmem
    obtain ⟨it3, hg3, hix3⟩ := hlookup_listed r2 ((mem_allRefs_iff p r2).1 hr2all)
    rw [hg2] at hg3
    injection hg3 with hh
    rw [← hh] at hix3
    rw [ha2] at hix3
    rw [hix] at hix3
    injection hix3 with hh2
    rw [← hh2] at hexp2
    rw [hexp] at hexp2
    exact absurd hexp2 (by decide)
  have hmem_items' : ∀ e', e' ∈ items' ↔
      ((∃ e ∈ p.items, e' = (e.1, e.2.filter keep)) ∧ e'.2 ≠ []) := by
    intro e'
    rw [hitemsdef, List.mem_filter, List.mem_map]
    constructor
    · rintro ⟨⟨e, he, hfe⟩, hne⟩
      refine ⟨⟨e, he, hfe.symm⟩, ?_⟩
      simpa using hne
    · rintro ⟨⟨e, he, hfe⟩, hne⟩
      exact ⟨⟨e, he, hfe.symm⟩, by simpa using hne⟩
  refine ⟨h1, h2, ?_, ?_, ?_, ?_, ?_, ?_⟩
  · show (items'.map (·.1)).Nodup
    have hsub : (items'.map (·.1)).Sublist
        ((p.items.map (fun e => (e.1, e.2.filter keep))).map (·.1)) :=
      (List.filter_sublist _).map _
    have heq : (p.items.map (fun e => (e.1, e.2.filter keep))).map (·.1)
        = p.items.map (·.1) := by
      rw [List.map_map]
      rfl
    exact h3.sublist (heq ▸ hsub)
  · show (index'.map (·.1)).Nodup
    exact h4.sublist ((List.filter_sublist _).map _)
  · intro e' he'
    exact ((hmem_items' e').1 he').2
  · intro e' he'
    obtain ⟨⟨e, he, hfe⟩, _⟩ := (hmem_items' e').1 he'
    rw [hfe]
    exact (h6 e he).filter _
  · intro e' he' r' hr'
    obtain ⟨⟨e, he, hfe⟩, _⟩ := (hmem_items' e').1 he'
    rw [hfe] at hr' ⊢
    have hr2 := List.mem_filter.1 hr'
    have hro := h7 e he r' hr2.1
    unfold ShimPool.refOK ShimPool.heapGet at hro ⊢
    rcases hg : alistLookup p.heap r' with _ | it'
    · rw [hg] at hro
      exact hro.elim
    · rw [hg] at hro
      simp only
      refine ⟨hro.1, ?_⟩
      have hkeep : p.expired now r' = false := by
        have hk2 := hr2.2
        rw [hkeepdef] at hk2
        simpa using hk2
      have hnot := hnotpa r' it' hg hro.2 hkeep
      rw [hindexdef]
      rw [alistLookup_filter_key _ (fun a => !prunedAddrs.contains a) _ (by simpa using hnot)]
      exact hro.2
  · intro e' he'
    rw [hindexdef] at he'
    have hm := List.mem_filter.1 he'
    have hio := h8 e' hm.1
    unfold ShimPool.indexOK ShimPool.heapGet at hio ⊢
    rcases hg : alistLookup p.heap e'.2 with _ | it'
    · rw [hg] at hio
      exact hio.elim
    · rw [hg] at hio
      simp only
      refine ⟨hio.1, ?_⟩
      obtain ⟨e1, he1, hre1⟩ := hio.2
      have hnc : e'.1 ∉ prunedAddrs := by
        have hc := hm.2
        simpa using hc
      have hkeepr : p.expired now e'.2 = false := by
        rcases hx : p.expired now e'.2 with _ | _
        · rfl
        · exact absurd ((hmem_pa _).2
            ⟨e'.2, (mem_allRefs_iff p e'.2).2 ⟨e1, he1, hre1⟩, hx, it', hg, hio.1⟩) hnc
      refine ⟨(e1.1, e1.2.filter keep), (hmem_items' _).2 ⟨⟨e1, he1, rfl⟩, ?_⟩, ?_⟩
      · intro hnil
        have hnil' : e1.2.filter keep = [] := hnil
        have hmm : e'.2 ∈ e1.2.filter keep :=
          List.mem_filter.2 ⟨hre1, by rw [hkeepdef]; simp [hkeepr]⟩
        rw [hnil'] at hmm
        cases hmm
      · exact List.mem_filter.2 ⟨hre1, by rw [hkeepdef]; simp [hkeepr]⟩

theorem eq_of_mem_keys_nodup {κ β : Type} [DecidableEq κ] {l : List (κ × β)}
    (hN : (l.map (·.1)).Nodup) {e e' : κ × β} (he : e ∈ l) (he' : e' ∈ l)
    (hk : e.1 = e'.1) : e = e' := by
  have l1 := alistLookup_of_mem_nodup hN he
  have l2 := alistLookup_of_mem_nodup hN he'
  rw [hk] at l1
  rw [l2] at l1
  injection l1 with hv
  cases e
  cases e'
  simp only at hk hv ⊢
  exact Prod.ext hk hv.symm

theorem flatten_nodup_of_lists {l : List (String × List Nat)}
    (hkeys : (l.map (·.1)).Nodup)
    (hnd : ∀ e ∈ l, e.2.Nodup)
    (hcr : ∀ e ∈ l, ∀ e' ∈ l, ∀ r, r ∈ e.2 → r ∈ e'.2 → e = e') :
    (l.map (·.2)).flatten.Nodup := by
  induction l with
  | nil => exact List.nodup_nil
  | cons a rest ih =>
    rw [List.map_cons, List.flatten_cons, List.nodup_append]
    refine ⟨hnd a (List.mem_cons_self _ _), ih
      (List.nodup_cons.1 (List.map_cons _ _ _ ▸ hkeys)).2
      (fun e he => hnd e (List.mem_cons_of_mem _ he))
      (fun e he e' he' r hr hr' => hcr e (List.mem_cons_of_mem _ he)
        e' (List.mem_cons_of_mem _ he') r hr hr'), ?_⟩
    intro r hra hrrest
    rw [List.mem_flatten] at hrrest
    obtain ⟨l', hl', hrl'⟩ := hrrest
    obtain ⟨e', he', hel'⟩ := List.mem_map.1 hl'
    have : a = e' := hcr a (List.mem_cons_self _ _) e'
      (List.mem_cons_of_mem _ he') r hra (hel' ▸ hrl')
    have hka : a.1 ∈ rest.map (·.1) := this ▸ List.mem_map_of_mem _ he'
    exact (List.nodup_cons.1 (List.map_cons _ _ _ ▸ hkeys)).1 hka

theorem shimPool_len_eq (p : ShimPool) (h : p.Inv) : p.len = p.totalItems := by
  obtain ⟨h1, h2, h3, h4, h5, h6, h7, h8⟩ := h
  have hlook : ∀ r, p.listed r → ∃ it, alistLookup p.heap r = some it ∧
      alistLookup p.index it.Address = some r := by
    rintro r ⟨e, he, hre⟩
    have hro := h7 e he r hre
    unfold ShimPool.refOK ShimPool.heapGet at hro
    rcases hg : alistLookup p.heap r with _ | it
    · rw [hg] at hro
      exact hro.elim
    · rw [hg] at hro
      exact ⟨it, rfl, hro.2⟩
  have hcr : ∀ e ∈ p.items, ∀ e' ∈ p.items, ∀ r, r ∈ e.2 → r ∈ e'.2 → e = e' := by
    intro e he e' he' r hr hr'
    have hro := h7 e he r hr
    have hro' := h7 e' he' r hr'
    unfold ShimPool.refOK ShimPool.heapGet at hro hro'
    rcases hg : alistLookup p.heap r with _ | it
    · rw [hg] at hro
      exact hro.elim
    · rw [hg] at hro hro'
      exact eq_of_mem_keys_nodup h3 he he' (hro.1.trans hro'.1.symm)
  have hall : p.allRefs.Nodup := flatten_nodup_of_lists h3 h6 hcr
  have hsnd : (p.index.map (·.2)).Nodup := by
    refine (List.Nodup.of_map _ h4).map_on ?_
    intro e he e' he' hee
    have hio := h8 e he
    have hio' := h8 e' he'
    unfold ShimPool.indexOK ShimPool.heapGet at hio hio'
    rcases hg : alistLookup p.heap e.2 with _ | it
    · rw [hg] at hio
      exact hio.elim
    · rw [hg] at hio
      rw [show e'.2 = e.2 from hee.symm] at hio'
      rw [hg] at hio'
      exact eq_of_mem_keys_nodup h4 he he' (hio.1.symm.trans hio'.1)
  have hiff : ∀ r, r ∈ p.index.map (·.2) ↔ r ∈ p.allRefs := by
    intro r
    constructor
    · intro hr
      obtain ⟨e, he, he2⟩ := List.mem_map.1 hr
      have hio := h8 e he
      unfold ShimPool.indexOK ShimPool.heapGet at hio
      rcases hg : alistLookup p.heap e.2 with _ | it
      · rw [hg] at hio
        exact hio.elim
      · rw [hg] at hio
        exact he2 ▸ (mem_allRefs_iff p e.2).2 hio.2
    · intro hr
      obtain ⟨it, _, hix⟩ := hlook r ((mem_allRefs_iff p r).1 hr)
      exact List.mem_map.2 ⟨(it.Address, r), alistLookup_mem hix, rfl⟩
  have hfin : (p.index.map (·.2)).toFinset = p.allRefs.toFinset := by
    ext r
    rw [List.mem_toFinset, List.mem_toFinset]
    exact hiff r
  have hlen : (p.index.map (·.2)).length = p.allRefs.length := by
    rw [← List.toFinset_card_of_nodup hsnd, ← List.toFinset_card_of_nodup hall, hfin]
  unfold ShimPool.len ShimPool.totalItems
  rw [← hlen, List.length_map]

/-- C9 counterexample: registering a second item under an address already
present in the pool breaks the consistency invariant: the first item is
still in its per-key list but no longer correctly indexed, and Len (the
index size) drops below the total number of items in the lists.  Starting
from the empty pool, Register(ns1, rt, addr) keeps the invariant, but a
further Register(ns2, rt, addr) yields a state violating it, with
Len = 1 while the lists hold 2 items. -/
theorem shimPool_register_breaks_inv :
    (((NewShimPool.register "ns1" "rt" "addr" 1 0).1).Inv) ∧
    ¬ ((((NewShimPool.register "ns1" "rt" "addr" 1 0).1).register
        "ns2" "rt" "addr" 2 0).1).Inv ∧
    ((((NewShimPool.register "ns1" "rt" "addr" 1 0).1).register
        "ns2" "rt" "addr" 2 0).1).len
      ≠ ((((NewShimPool.register "ns1" "rt" "addr" 1 0).1).register
        "ns2" "rt" "addr" 2 0).1).totalItems := by
  refine ⟨by decide, by decide, by decide⟩

/-- C9 amended: every ShimPool operation preserves the consistency
invariant of the pool state under the freshness preconditions the code
relies on: Register preserves it whenever the registered address is not
already indexed, GetIdle, Return and Prune preserve it unconditionally,
and Remove preserves it whenever the given namespace and item identify
the list actually holding the indexed item (or the address is not indexed
at all); moreover, in every state satisfying the invariant, Len() equals
the total number of items across all lists. -/
theorem shimPool_ops_preserve_inv (p : ShimPool) (h : p.Inv) :
    (∀ ns runtime address pid now, alistLookup p.index address = none →
      ((p.register ns runtime address pid now).1).Inv) ∧
    (∀ ns runtime now, ((p.getIdle ns runtime now).2).Inv) ∧
    (∀ address now, (p.ret address now).Inv) ∧
    (∀ ns item, p.removePre ns item → (p.remove ns item).Inv) ∧
    (∀ now, (p.prune now).Inv) ∧
    p.len = p.totalItems :=
  ⟨fun ns rt a pid now hf => shimPool_register_inv p ns rt a pid now hf h,
   fun ns rt now => shimPool_getIdle_inv p ns rt now h,
   fun a now => shimPool_ret_inv p a now h,
   fun ns it hpre => shimPool_remove_inv p ns it hpre h,
   fun now => shimPool_prune_inv p now h,
   shimPool_len_eq p h⟩

theorem shimPool_ops_preserve_inv_witness :
    ((((NewShimPool.register "ns1" "rt" "addr" 1 0).1).register
        "ns2" "rt" "addr2" 2 0).1).Inv ∧
    ((NewShimPool.register "ns1" "rt" "addr" 1 0).1).len
      = ((NewShimPool.register "ns1" "rt" "addr" 1 0).1).totalItems :=
  ⟨(shimPool_ops_preserve_inv (NewShimPool.register "ns1" "rt" "addr" 1 0).1
      (by decide)).1 "ns2" "rt" "addr2" 2 0 (by decide),
   (shimPool_ops_preserve_inv (NewShimPool.register "ns1" "rt" "addr" 1 0).1
      (by decide)).2.2.2.2.2⟩

end ContainerdWarm
